import Mathlib

/-!
Verification development for the node-gptscript client library.

The definitions below are a shallow embedding of `src/gptscript.ts`:
JavaScript strings are modelled as `List Char`, JSON values as the
inductive `Json`, and the mutable `Run` object as the structure `RunM`
threaded through explicit state-passing functions.  JavaScript
exceptions (TypeError on property access of `null`/`undefined`,
`close()` on a never-started run) are modelled as `Option`/`Except`
failure.  Instrumentation fields (`closeCount`, `emitted`, `seen`) are
ghost state recording side effects (request teardown calls, callback
fan-out, records recognized by the stream-data handler); they never
feed back into behaviour.
-/

/-- Characters of a Lean string literal, used to write JS strings as `List Char`. -/
def cs (s : String) : List Char := s.data

abbrev Str := List Char

/-- Whitespace recognized by JavaScript `String.prototype.trim`: per
ECMA-262 this is WhiteSpace ∪ LineTerminator, i.e. TAB, LF, VT, FF, CR,
ZWNBSP (U+FEFF), LINE SEPARATOR, PARAGRAPH SEPARATOR, and every
Space_Separator code point (SPACE, NBSP, OGHAM SPACE MARK, the EN QUAD to
HAIR SPACE range, NARROW NBSP, MEDIUM MATHEMATICAL SPACE, IDEOGRAPHIC
SPACE). -/
def isWsChar (c : Char) : Bool :=
  c = ' ' || c = '\t' || c = '\n' || c = '\x0d' || c = '\x0b' || c = '\x0c'
    || c = '\xa0' || c = ' '
    || (' ' ≤ c && c ≤ ' ')
    || c = ' ' || c = ' ' || c = ' ' || c = ' '
    || c = '　' || c = '﻿'

/-- Model of `s.trim()`: drop whitespace from both ends. -/
def jsTrim (s : Str) : Str :=
  ((s.dropWhile isWsChar).reverse.dropWhile isWsChar).reverse

/-- Model of `s.split("\n")`: split on newline, keeping empty pieces. -/
def splitNl : Str → List Str
  | [] => [[]]
  | c :: rest =>
    if c = '\n' then [] :: splitNl rest
    else
      match splitNl rest with
      | [] => [[c]]
      | h :: t => (c :: h) :: t

/-- Model of `line.replace(/^(data: )/, "")`: strip one leading "data: " tag. -/
def stripDataTag (s : Str) : Str :=
  if (cs "data: ").isPrefixOf s then s.drop 6 else s

/-- JSON values as produced by `JSON.parse`.  Number tokens are kept as their
source lexeme; the claims never depend on float normalization.  Object fields
are kept in first-occurrence order with last-value-wins (as JS objects do). -/
inductive Json where
  | null : Json
  | bool : Bool → Json
  | num : Str → Json
  | str : Str → Json
  | arr : List Json → Json
  | obj : List (Str × Json) → Json

/-- Property lookup `o[key]` on a parsed JSON value: `none` models JS
`undefined` (missing property, or property access on a non-object primitive
that carries no such property).  Accessing a property of `null` throws in JS;
callers below model that case with an `Option` failure before reaching here. -/
def getField (j : Json) (key : String) : Option Json :=
  match j with
  | .obj fields => fields.lookup (cs key)
  | _ => none

/-- JavaScript truthiness of a JSON value ("" and 0 are falsy, every object
and array is truthy; a JSON number token is falsy exactly when it denotes 0). -/
def numIsZero (lx : Str) : Bool :=
  ((lx.filter fun c => c.isDigit).all fun c => c = '0')

def jsTruthy : Json → Bool
  | .null => false
  | .bool b => b
  | .num lx => !numIsZero lx
  | .str s => !s.isEmpty
  | .arr _ => true
  | .obj _ => true

/-- Truthiness of a possibly-undefined value (`undefined` is falsy). -/
def jsTruthyO : Option Json → Bool
  | none => false
  | some v => jsTruthy v

/-- Insert-or-replace for JS object/record assignment `m[k] = v`: an existing
key keeps its position and gets the new value; a new key is appended. -/
def insertReplace (l : List (Str × Json)) (k : Str) (v : Json) : List (Str × Json) :=
  match l with
  | [] => [(k, v)]
  | (k', v') :: rest =>
    if k' = k then (k', v) :: rest else (k', v') :: insertReplace rest k v


/-- Lookup in the run's call map (plain association-list lookup; the map is
maintained with `insertReplace`, so keys are unique). -/
def lookupKey (l : List (Str × Json)) (k : Str) : Option Json :=
  l.lookup k

/-- Number of entries in the call map under a given key. -/
def countKey (l : List (Str × Json)) (k : Str) : Nat :=
  (l.filter fun p => p.1 = k).length

mutual

/-- JavaScript `String(x)` conversion, as used by template literals and by
object-key coercion.  Arrays join their element conversions with ","
(with `null` rendering empty inside an array); objects render
"[object Object]"; number tokens render as their source lexeme (the claims
never depend on JS float formatting). -/
def jsToDisplay : Json → Str
  | .null => cs "null"
  | .bool b => if b then cs "true" else cs "false"
  | .num lx => lx
  | .str s => s
  | .arr xs => jsToDisplayElems xs
  | .obj _ => cs "[object Object]"
termination_by structural j => j

def jsToDisplayElems : List Json → Str
  | [] => []
  | [Json.null] => []
  | [x] => jsToDisplay x
  | Json.null :: rest => ',' :: jsToDisplayElems rest
  | x :: rest => jsToDisplay x ++ ',' :: jsToDisplayElems rest
termination_by structural l => l

end

/-- Display of a possibly-undefined value (string interpolation of a missing
property renders "undefined"). -/
def jsToDisplayO : Option Json → Str
  | none => cs "undefined"
  | some v => jsToDisplay v

/-- Escaping of one character inside a `JSON.stringify` string literal. -/
def hexDigit (n : Nat) : Char :=
  if n < 10 then Char.ofNat ('0'.toNat + n) else Char.ofNat ('a'.toNat + n - 10)

def escapeJsonChar (c : Char) : Str :=
  if c = '"' then ['\\', '"']
  else if c = '\\' then ['\\', '\\']
  else if c = '\n' then ['\\', 'n']
  else if c = '\x0d' then ['\\', 'r']
  else if c = '\t' then ['\\', 't']
  else if c = '\x08' then ['\\', 'b']
  else if c = '\x0c' then ['\\', 'f']
  else if c.toNat < 0x20 then
    ['\\', 'u', '0', '0', hexDigit (c.toNat / 16), hexDigit (c.toNat % 16)]
  else [c]

mutual

/-- Model of `JSON.stringify` on parsed JSON values (no `undefined` members
can occur in a `Json`, so the omission rule never fires; number tokens are
emitted as their source lexeme). -/
def stringify : Json → Str
  | .null => cs "null"
  | .bool b => if b then cs "true" else cs "false"
  | .num lx => lx
  | .str s => '"' :: (s.flatMap escapeJsonChar) ++ ['"']
  | .arr xs => '[' :: stringifyElems xs ++ [']']
  | .obj fs => '\x7b' :: stringifyFields fs ++ ['\x7d']
termination_by structural j => j

def stringifyElems : List Json → Str
  | [] => []
  | [x] => stringify x
  | x :: rest => stringify x ++ ',' :: stringifyElems rest
termination_by structural l => l

def stringifyFields : List (Str × Json) → Str
  | [] => []
  | [(k, v)] => '"' :: (k.flatMap escapeJsonChar) ++ '"' :: ':' :: stringify v
  | (k, v) :: rest =>
    '"' :: (k.flatMap escapeJsonChar) ++ '"' :: ':' :: stringify v ++ ',' :: stringifyFields rest
termination_by structural l => l

end

/-- Model of `JSON.stringify` applied to a possibly-undefined value:
`JSON.stringify(undefined)` is `undefined`, not a string. -/
def stringifyO : Option Json → Option Str
  | none => none
  | some v => some (stringify v)

/-- Whitespace skipped by `JSON.parse` between tokens. -/
def skipWs (s : Str) : Str :=
  s.dropWhile fun c => c = ' ' || c = '\t' || c = '\n' || c = '\x0d'

/-- Body of a JSON string literal, after the opening quote.  Returns the
decoded characters and the remainder after the closing quote.  Raw control
characters are rejected, as `JSON.parse` does. -/
def hexVal (c : Char) : Option Nat :=
  if '0' ≤ c ∧ c ≤ '9' then some (c.toNat - '0'.toNat)
  else if 'a' ≤ c ∧ c ≤ 'f' then some (c.toNat - 'a'.toNat + 10)
  else if 'A' ≤ c ∧ c ≤ 'F' then some (c.toNat - 'A'.toNat + 10)
  else none

def parseStrBody : Str → Option (Str × Str)
  | [] => none
  | '"' :: rest => some ([], rest)
  | '\\' :: esc =>
    match esc with
    | '"' :: r => (parseStrBody r).map fun p => ('"' :: p.1, p.2)
    | '\\' :: r => (parseStrBody r).map fun p => ('\\' :: p.1, p.2)
    | '/' :: r => (parseStrBody r).map fun p => ('/' :: p.1, p.2)
    | 'b' :: r => (parseStrBody r).map fun p => ('\x08' :: p.1, p.2)
    | 'f' :: r => (parseStrBody r).map fun p => ('\x0c' :: p.1, p.2)
    | 'n' :: r => (parseStrBody r).map fun p => ('\n' :: p.1, p.2)
    | 'r' :: r => (parseStrBody r).map fun p => ('\x0d' :: p.1, p.2)
    | 't' :: r => (parseStrBody r).map fun p => ('\t' :: p.1, p.2)
    | 'u' :: a :: b :: c :: d :: r =>
      match hexVal a, hexVal b, hexVal c, hexVal d with
      | some ha, some hb, some hc, some hd =>
        (parseStrBody r).map fun p =>
          (Char.ofNat (((ha * 16 + hb) * 16 + hc) * 16 + hd) :: p.1, p.2)
      | _, _, _, _ => none
    | _ => none
  | c :: rest =>
    if c.toNat < 0x20 then none
    else (parseStrBody rest).map fun p => (c :: p.1, p.2)

/-- JSON number token: returns the lexeme and the remainder. -/
def parseNum (s : Str) : Option (Str × Str) :=
  let signed : Bool := s.head? = some '-'
  let s1 := if signed then s.drop 1 else s
  let intPart := s1.takeWhile Char.isDigit
  let r1 := s1.dropWhile Char.isDigit
  if intPart.isEmpty then none
  else if intPart.length > 1 ∧ intPart.head? = some '0' then none
  else
    let withFrac : Option (Str × Str) :=
      match r1 with
      | '.' :: r2 =>
        let fr := r2.takeWhile Char.isDigit
        if fr.isEmpty then none else some ('.' :: fr, r2.dropWhile Char.isDigit)
      | _ => some ([], r1)
    match withFrac with
    | none => none
    | some (fracLex, r2) =>
      let withExp : Option (Str × Str) :=
        match r2 with
        | e :: r3 =>
          if e = 'e' ∨ e = 'E' then
            let (sgn, r4) : Str × Str :=
              match r3 with
              | '+' :: r4 => (['+'], r4)
              | '-' :: r4 => (['-'], r4)
              | _ => ([], r3)
            let ds := r4.takeWhile Char.isDigit
            if ds.isEmpty then none
            else some (e :: sgn ++ ds, r4.dropWhile Char.isDigit)
          else some ([], r2)
        | [] => some ([], r2)
      match withExp with
      | none => none
      | some (expLex, r5) =>
        some ((if signed then ['-'] else []) ++ intPart ++ fracLex ++ expLex, r5)

mutual

/-- Recursive-descent JSON value parser (fuel-indexed to satisfy the
termination checker; `jsonParse` supplies ample fuel). -/
def parseVal : Nat → Str → Option (Json × Str)
  | 0, _ => none
  | fuel + 1, s =>
    let s := skipWs s
    match s with
    | '\x7b' :: rest => parseObjBody fuel rest
    | '[' :: rest => parseArrBody fuel rest
    | '"' :: rest => (parseStrBody rest).map fun p => (Json.str p.1, p.2)
    | _ =>
      if (cs "true").isPrefixOf s then some (Json.bool true, s.drop 4)
      else if (cs "false").isPrefixOf s then some (Json.bool false, s.drop 5)
      else if (cs "null").isPrefixOf s then some (Json.null, s.drop 4)
      else (parseNum s).map fun p => (Json.num p.1, p.2)

def parseObjBody : Nat → Str → Option (Json × Str)
  | 0, _ => none
  | fuel + 1, s =>
    match skipWs s with
    | '\x7d' :: rest => some (Json.obj [], rest)
    | s' => parseFields fuel s' []

def parseFields : Nat → Str → List (Str × Json) → Option (Json × Str)
  | 0, _, _ => none
  | fuel + 1, s, acc =>
    match skipWs s with
    | '"' :: rest =>
      match parseStrBody rest with
      | none => none
      | some (key, r1) =>
        match skipWs r1 with
        | ':' :: r2 =>
          match parseVal fuel r2 with
          | none => none
          | some (v, r3) =>
            let acc' := insertReplace acc key v
            match skipWs r3 with
            | ',' :: r4 => parseFields fuel r4 acc'
            | '\x7d' :: r4 => some (Json.obj acc', r4)
            | _ => none
        | _ => none
    | _ => none

def parseArrBody : Nat → Str → Option (Json × Str)
  | 0, _ => none
  | fuel + 1, s =>
    match skipWs s with
    | ']' :: rest => some (Json.arr [], rest)
    | s' => parseElems fuel s' []

def parseElems : Nat → Str → List Json → Option (Json × Str)
  | 0, _, _ => none
  | fuel + 1, s, acc =>
    match parseVal fuel s with
    | none => none
    | some (v, r1) =>
      match skipWs r1 with
      | ',' :: r2 => parseElems fuel r2 (acc ++ [v])
      | ']' :: r2 => some (Json.arr (acc ++ [v]), r2)
      | _ => none

end

/-- Model of `JSON.parse(text)`: the whole input must be one JSON value,
possibly surrounded by whitespace; `none` models a thrown `SyntaxError`. -/
def jsonParse (s : Str) : Option Json :=
  match parseVal (s.length + 1) s with
  | some (v, rest) => if (skipWs rest).isEmpty then some v else none
  | none => none

/-- Lifecycle states of a `Run` (`enum RunState` in the source). -/
inductive RunState where
  | creating
  | running
  | cont
  | finished
  | error
deriving DecidableEq

/-- String value of each `RunState` member, used in error messages. -/
def stateStr : RunState → Str
  | .creating => cs "creating"
  | .running => cs "running"
  | .cont => cs "continue"
  | .finished => cs "finished"
  | .error => cs "error"

/-- The fields of `RunOpts` that the verified operations read or write
(`input`, `chatState`, and the `prompt` enablement flag; `prompt` is the
truthiness of the optional boolean). -/
structure RunOpts where
  input : Option Str := none
  chatState : Option Str := none
  prompt : Bool := false
deriving DecidableEq

/-- Mutable state of a `Run` object.  `reqSet` is whether `this.req` exists
(the run was started); `destroyed` and `closeCount` record `req.destroy()`
calls; `emitted` records callback fan-out as (event-key, frame) pairs;
`seen` records each record successfully parsed by the stream-data handler.
The last three are instrumentation and never feed back into behaviour. -/
structure RunM where
  state : RunState := .creating
  opts : RunOpts := {}
  calls : List (Str × Json) := []
  err : Json := Json.str []
  stderrBuf : Str := []
  stdoutBuf : Option Json := none
  chatState : Option Str := none
  respondingToolId : Option Json := none
  parentCallId : Option Json := some (Json.str [])
  prg : Option Json := none
  reqSet : Bool := false
  destroyed : Bool := false
  closeCount : Nat := 0
  emitted : List (Str × Json) := []
  seen : List Json := []

/-- Model of `Run.close()`: destroy the in-flight request if one exists,
otherwise throw "Run not started" (modelled as `none`). -/
def closeRun (r : RunM) : Option RunM :=
  if r.reqSet then some { r with destroyed := true, closeCount := r.closeCount + 1 }
  else none

/-- Test `f.type === "<s>"` (strict string comparison against an enum value). -/
def typeIs (f : Json) (s : String) : Bool :=
  match getField f "type" with
  | some (.str t) => t = cs s
  | _ => false

/-- Key coercion for `this.calls[f.id]` and `this.callbacks[event]`
(JS property keys are string-coerced; `undefined` coerces to "undefined"). -/
def jsKeyO : Option Json → Str
  | none => cs "undefined"
  | some v => jsToDisplay v

/-- Test `this.parentCallId === ""`. -/
def isEmptyStrO : Option Json → Bool
  | some (.str s) => s.isEmpty
  | _ => false

/-- Fan a frame out: `this.emit(RunEventType.Event, f); this.emit(f.type, f)`. -/
def emit2 (r : RunM) (f : Json) : RunM :=
  { r with emitted := r.emitted ++ [(cs "event", f), (jsKeyO (getField f "type"), f)] }

/-- The error message built in the prompt-policy branch of `emitEvent`. -/
def promptErrMsg (f : Json) : Str :=
  cs "prompt occurred when prompt was not allowed: Message: "
    ++ jsToDisplayO (getField f "message")
    ++ cs "\nFields: " ++ jsToDisplayO (getField f "fields")
    ++ cs "\nSensitive: " ++ jsToDisplayO (getField f "sensitive")

/-- Per-frame body of `Run.emitEvent` after envelope selection.  The source's
`if (!this.state) this.state = RunState.Creating` guard is dead code here:
`state` always holds one of the five enum strings, all truthy.  The returned
flag is `true` when the prompt-policy branch fired (`return ""` cutting the
event loop short).  `none` models the `TypeError` thrown by
`(f.type as string).startsWith("call")` when `f.type` is not a string, and
the "Run not started" throw from `this.close()`. -/
def processFrame (r : RunM) (f : Json) : Option (RunM × Bool) :=
  if typeIs f "prompt" && !r.opts.prompt then
    match closeRun { r with state := .error, err := Json.str (promptErrMsg f) } with
    | none => none
    | some r' => some (r', true)
  else if typeIs f "runStart" then
    let r' := { r with state := .running, prg := getField f "program" }
    some (emit2 r' f, false)
  else if typeIs f "runFinish" then
    let r' :=
      if jsTruthyO (getField f "error") then
        { r with state := .error, err := (getField f "error").getD (Json.str []) }
      else
        { r with state := .finished, stdoutBuf := some ((getField f "output").getD (Json.str [])) }
    some (emit2 r' f, false)
  else
    match getField f "type" with
    | some (Json.str t) =>
      if (cs "call").isPrefixOf t then
        let r1 :=
          if !jsTruthyO (getField f "parentID") && isEmptyStrO r.parentCallId then
            { r with parentCallId := getField f "id" }
          else r
        let r2 := { r1 with calls := insertReplace r1.calls (jsKeyO (getField f "id")) f }
        some (emit2 r2 f, false)
      else
        some (emit2 r f, false)
    | _ => none

/-- Envelope selection in `Run.emitEvent`: `if (obj.run) ... else if (obj.call)
... else if (obj.prompt) ... else` (the final else returns the event text). -/
def envelope (obj : Json) : Option Json :=
  if jsTruthyO (getField obj "run") then getField obj "run"
  else if jsTruthyO (getField obj "call") then getField obj "call"
  else if jsTruthyO (getField obj "prompt") then getField obj "prompt"
  else none

/-- The run produced by the call-record branch of `emitEvent`: root-call
tracking, whole-frame replacement in the call map, then fan-out.  This names
the branch body of `processFrame` verbatim. -/
def callUpdate (r : RunM) (fr : Json) : RunM :=
  let r1 :=
    if !jsTruthyO (getField fr "parentID") && isEmptyStrO r.parentCallId then
      { r with parentCallId := getField fr "id" }
    else r
  emit2 { r1 with calls := insertReplace r1.calls (jsKeyO (getField fr "id")) fr } fr

/-- Loop of `Run.emitEvent` over the newline-split pieces of its argument.
A piece that fails to parse, or parses to a JSON object without a truthy
`run`/`call`/`prompt` member, is returned (trimmed) as the new carry-over.
A piece that parses to `null` throws on the `obj.run` property access
(modelled as `none`). -/
def emitLoop (r : RunM) : List Str → Option (RunM × Str)
  | [] => some (r, [])
  | ev :: rest =>
    let e := jsTrim ev
    if e.isEmpty then emitLoop r rest
    else
      match jsonParse e with
      | none => some (r, e)
      | some Json.null => none
      | some obj =>
        match envelope obj with
        | none => some (r, e)
        | some f =>
          match processFrame r f with
          | none => none
          | some (r', early) => if early then some (r', []) else emitLoop r' rest

/-- Model of `Run.emitEvent(data)`: returns the updated run and the string
the method returns (the next carry-over fragment). -/
def emitEvent (r : RunM) (data : Str) : Option (RunM × Str) :=
  emitLoop r (splitNl data)

/-- Body of `Run.processStdout` once the payload is a parsed JSON value
(`Json.null` models the `TypeError` from `out.done` on `null`). -/
def processStdoutParsed (r : RunM) (out : Json) : Option (RunM × Str) :=
  match out with
  | .null => none
  | _ =>
    match getField out "done" with
    | none =>
      some ({ r with
              chatState := stringifyO (getField out "state"),
              state := .cont,
              respondingToolId := getField out "toolId" }, [])
    | some d =>
      if !jsTruthy d then
        some ({ r with
                chatState := stringifyO (getField out "state"),
                state := .cont,
                respondingToolId := getField out "toolId" }, [])
      else
        some ({ r with state := .finished, chatState := none }, [])

/-- Model of `Run.processStdout(data)` (the `Run` class version): a blank
string is ignored; a string that fails to parse as JSON is returned as-is;
otherwise the payload drives the Continue/Finished transition. -/
def processStdout (r : RunM) (data : Json) : Option (RunM × Str) :=
  match data with
  | .str s =>
    if (jsTrim s).isEmpty then some (r, [])
    else
      match jsonParse s with
      | none => some (r, s)
      | some d => processStdoutParsed r d
  | d => processStdoutParsed r d

/-- Classification of one parsed record in the `res.on("data")` handler of
`Run.request`: a truthy `stderr` member appends to the diagnostic buffer,
else a truthy `stdout` member goes to `processStdout`, else the record text
goes to `emitEvent`.  Returns the updated run and the new carry-over.
`Json.null` models the `TypeError` from `e.stderr` on `null`. -/
def classifyStep (r : RunM) (c : Str) (e : Json) : Option (RunM × Str) :=
  match e with
  | .null => none
  | _ =>
    if jsTruthyO (getField e "stderr") then
      let sv := (getField e "stderr").getD Json.null
      let txt := match sv with | .str s => s | v => stringify v
      some ({ r with stderrBuf := r.stderrBuf ++ txt }, [])
    else if jsTruthyO (getField e "stdout") then
      processStdout r ((getField e "stdout").getD Json.null)
    else
      emitEvent r c

/-- Ghost bookkeeping: record one successfully parsed record. -/
def recordSeen (r : RunM) (e : Json) : RunM :=
  { r with seen := r.seen ++ [e] }

/-- Line loop of the `res.on("data")` handler: strip the "data: " tag, trim,
skip blanks, stop at the "[DONE]" sentinel, parse, classify; a parse failure
stores the trimmed line as the carry-over and stops. -/
def onDataLoop (r : RunM) (frag : Str) : List Str → Option (RunM × Str)
  | [] => some (r, frag)
  | line :: rest =>
    let c := jsTrim (stripDataTag line)
    if c.isEmpty then onDataLoop r frag rest
    else if c = cs "[DONE]" then some (r, frag)
    else
      match jsonParse c with
      | none => some (r, c)
      | some e =>
        match classifyStep (recordSeen r e) c e with
        | none => none
        | some (r', frag') => onDataLoop r' frag' rest

/-- Model of one `res.on("data")` invocation: the carry-over fragment is
prepended to the chunk, the result split on newlines, and the lines fed to
the loop.  Returns the updated run and the carry-over for the next chunk. -/
def onData (r : RunM) (frag : Str) (chunk : Str) : Option (RunM × Str) :=
  onDataLoop r frag (splitNl (frag ++ chunk))

/-- Truthiness of `this.chatState` (an optional string). -/
def chatTruthy : Option Str → Bool
  | none => false
  | some s => !s.isEmpty

/-- The usage-error message thrown by `Run.nextChat` in an illegal state. -/
def nextChatErrMsg (s : RunState) : Str :=
  cs "Run must in creating, continue or error state, not " ++ stateStr s

/-- Observable outcome of a successful `Run.nextChat` call: whether a fresh
`Run` object was constructed (`run = new (this.constructor)...`), and the
options object (shared by receiver and new run) as it stands when
`run.request(...)` is issued. -/
structure NextChatOutcome where
  madeNew : Bool
  opts : RunOpts
  requested : Bool
deriving DecidableEq

/-- Model of `Run.nextChat(input)`.  An illegal state throws synchronously
(`Except.error`) before any object construction or transport call; in the
legal path the continuation token is copied into the shared options only if
the receiver holds a truthy token and its state is `Continue`, the input is
replaced, and the request is issued. -/
def nextChat (r : RunM) (input : Str) : Except Str NextChatOutcome :=
  if r.state ≠ .cont ∧ r.state ≠ .creating ∧ r.state ≠ .error then
    .error (nextChatErrMsg r.state)
  else
    let madeNew : Bool := r.state != .creating
    let opts1 :=
      if chatTruthy r.chatState && (r.state == .cont) then
        { r.opts with chatState := r.chatState }
      else r.opts
    let opts2 := { opts1 with input := some input }
    .ok { madeNew := madeNew, opts := opts2, requested := true }

/-- Operations on the module-level `GPTScript` static state. -/
inductive FacOp where
  | construct
  | close
deriving DecidableEq

/-- The static state shared by all `GPTScript` facade instances:
the reference count and whether an engine subprocess has been spawned
(`GPTScript.serverProcess` stays set after a kill, as in the source). -/
structure FacadeState where
  instanceCount : Int := 0
  serverStarted : Bool := false
deriving DecidableEq

/-- One facade operation.  `construct` increments the count and spawns the
subprocess exactly when the count becomes 1 and `GPTSCRIPT_DISABLE_SERVER`
is not "true"; `close` decrements the count and kills the subprocess exactly
when the count reaches 0 with a subprocess present.  The returned flag
reports whether this operation killed the subprocess. -/
def facStep (disableServer : Bool) (s : FacadeState) : FacOp → FacadeState × Bool
  | .construct =>
    let c := s.instanceCount + 1
    if c = 1 ∧ disableServer = false then
      ({ instanceCount := c, serverStarted := true }, false)
    else
      ({ s with instanceCount := c }, false)
  | .close =>
    let c := s.instanceCount - 1
    if c = 0 ∧ s.serverStarted = true then
      ({ s with instanceCount := c }, true)
    else
      ({ s with instanceCount := c }, false)

/-- Trace of a sequence of facade operations: the list of
(state-before, operation, state-after, killed-flag) steps. -/
def facTrace (disableServer : Bool) (s : FacadeState) :
    List FacOp → List (FacadeState × FacOp × FacadeState × Bool)
  | [] => []
  | op :: rest =>
    (s, op, (facStep disableServer s op).1, (facStep disableServer s op).2)
      :: facTrace disableServer (facStep disableServer s op).1 rest

/-- The "_gz" marker checked by `getEnv`. -/
def gzTag : Str := cs "\x7b\"_gz\":\""

def gzEnd : Str := cs "\"\x7d"

/-- Model of `v.slice(8, -2)`. -/
def gzPayload (v : Str) : Str :=
  (v.take (v.length - 2)).drop 8

/-- Model of `getEnv(key, def)`.  `envVal` is `process.env[key]` (`none` when
unset); `decode` is the external base64-decode-then-gunzip step of the zlib
library (`none` models a thrown decompression error). -/
def getEnv (envVal : Option Str) (decode : Str → Option Str) (dflt : Str) : Str :=
  let v := envVal.getD []
  if v.isEmpty then dflt
  else if gzTag.isPrefixOf v ∧ gzEnd.isSuffixOf v then
    match decode (gzPayload v) with
    | some out => out
    | none => v
  else v

/-- A record is "clean" when classifying it leaves no carry-over fragment:
its diagnostic field is truthy, or its primary-output payload is blank or
parseable, or it is a run/call/prompt event envelope.  Records outside this
set (bare values, foreign objects, stdout payloads that are unparseable
nonblank strings) are bounced back into the carry-over by the source. -/
def cleanRecord (v : Json) : Bool :=
  match v with
  | .null => true
  | _ =>
    if jsTruthyO (getField v "stderr") then true
    else if jsTruthyO (getField v "stdout") then
      match (getField v "stdout").getD Json.null with
      | .str s => if (jsTrim s).isEmpty then true else (jsonParse s).isSome
      | _ => true
    else
      jsTruthyO (getField v "run") || jsTruthyO (getField v "call")
        || jsTruthyO (getField v "prompt")

/-- Call-frame bookkeeping entry of the legacy handler variant
(`src/unnamed/part_004`): the object its `emitEvent` pushes into
`this.calls`, with `undefined`-able members as `Option Json`. -/
structure CallV4 where
  id : Option Json
  parentID : Option Json
  tool : Option Json
  messages : List Json
  state : RunState
  chatCompletionId : Option Json
  chatRequest : Option Json
  input : Json := Json.str []
  output : Option Json := none

/-- Run state of the legacy handler variant (`src/unnamed/part_004`):
`stdout` and `stderr` are optional there, `calls` is an array searched with
`===` on ids, and `err` starts as the empty string.  `emitted` and `seen`
are ghost instrumentation: the fan-out calls and each record the data
handler parses. -/
structure RunV4 where
  state : RunState := .creating
  calls : List CallV4 := []
  err : Json := Json.str []
  stdoutBuf : Option Json := none
  stderrBuf : Option Str := none
  chatState : Option Str := none
  emitted : List (Str × Json) := []
  seen : List Json := []

/-- JS `===` between two possibly-`undefined` id values, as used by
`this.calls?.find((x) => x.id === f.callContext.id)`.  Strings, booleans,
`null` and `undefined` compare by value; two parsed objects or arrays are
distinct heap references and never compare equal; number ids compare by
lexeme (the engine's call ids are strings). -/
def jsStrictEqO : Option Json → Option Json → Bool
  | none, none => true
  | some (Json.str a), some (Json.str b) => a == b
  | some (Json.bool a), some (Json.bool b) => a == b
  | some (Json.num a), some (Json.num b) => a == b
  | some Json.null, some Json.null => true
  | _, _ => false

/-- Replace the first entry satisfying `p` (the object `find` returned and
the handler mutated in place). -/
def updateFirst (p : α → Bool) (g : α → α) : List α → List α
  | [] => []
  | x :: xs => if p x then g x :: xs else x :: updateFirst p g xs

/-- The per-`f.type` mutation of one call entry in the legacy `emitEvent`
(`callStart`/`callChat`/`callContinue`/`callProgress`/`callFinish`; any
other `call*` type falls through every branch and leaves the entry as is).
In the `callChat` branch, `(f.chatRequest.messages || []).slice(n)` is
modelled for an array-or-absent `messages` member, the only shape the
protocol produces. -/
def callUpdateV4 (f : Json) (t : Str) (c : CallV4) : CallV4 :=
  if t == cs "callStart" then
    { c with
      state := .creating
      input := if jsTruthyO (getField f "content")
               then (getField f "content").getD Json.null
               else Json.str [] }
  else if t == cs "callChat" then
    let more :=
      if jsTruthyO (getField f "chatRequest") then
        match (getField f "chatRequest").bind (fun cr => getField cr "messages") with
        | some (Json.arr xs) => xs.drop c.messages.length
        | _ => []
      else []
    let resp :=
      if jsTruthyO (getField f "chatResponse") then
        [(getField f "chatResponse").getD Json.null]
      else []
    { c with state := .running, messages := c.messages ++ more ++ resp }
  else if t == cs "callContinue" then
    { c with state := .running }
  else if t == cs "callProgress" then
    { c with state := .running, output := getField f "content" }
  else if t == cs "callFinish" then
    { c with state := .finished, output := getField f "content" }
  else c

/-- One frame of the legacy `emitEvent` (`src/unnamed/part_004`): the
`!this.state` guard (dead for the five nonempty enum strings), the
`runStart`/`runFinish` transitions, the `call*` find-or-push bookkeeping on
the `calls` array, and the two-event fan-out.  `none` models the
`TypeError` of `(f.type as string).startsWith("call")` when `f.type` is not
a string, and of `f.callContext.id` when `callContext` is missing or
`null`. -/
def emitFrameV4 (r : RunV4) (f : Json) : Option RunV4 :=
  let r := if (stateStr r.state).isEmpty then { r with state := .creating } else r
  match getField f "type" with
  | some (Json.str t) =>
    let fan := fun (r' : RunV4) =>
      { r' with emitted := r'.emitted ++ [(cs "event", f), (t, f)] }
    if t == cs "runStart" then
      some (fan { r with state := .running })
    else if t == cs "runFinish" then
      if jsTruthyO (getField f "err") then
        some (fan
          { r with
            state := .error
            err := (getField f "err").getD Json.null })
      else
        some (fan
          { r with
            state := .finished
            stdoutBuf := some (if jsTruthyO (getField f "output")
                               then (getField f "output").getD Json.null
                               else Json.str []) })
    else if (cs "call").isPrefixOf t then
      match getField f "callContext" with
      | none => none
      | some Json.null => none
      | some cc =>
        let cid := getField cc "id"
        let base :=
          match r.calls.find? (fun x => jsStrictEqO x.id cid) with
          | some c => c
          | none =>
            { id := cid, parentID := getField cc "parentID",
              tool := getField cc "tool", messages := [],
              state := .running,
              chatCompletionId := getField cc "chatCompletionId",
              chatRequest := getField cc "chatRequest" }
        let upd := callUpdateV4 f t base
        let calls' :=
          if (r.calls.find? (fun x => jsStrictEqO x.id cid)).isSome then
            updateFirst (fun x => jsStrictEqO x.id cid) (fun _ => upd) r.calls
          else r.calls ++ [upd]
        some (fan { r with calls := calls' })
    else
      some (fan r)
  | _ => none

/-- Loop of the legacy `emitEvent` over the newline-split pieces of its
argument: trim, skip blanks, parse (a failure returns the piece as the new
carry-over, stopping the loop), process the frame. -/
def emitEventLoopV4 (r : RunV4) : List Str → Option (RunV4 × Str)
  | [] => some (r, [])
  | line :: rest =>
    let ev := jsTrim line
    if ev.isEmpty then emitEventLoopV4 r rest
    else
      match jsonParse ev with
      | none => some (r, ev)
      | some f =>
        match emitFrameV4 r f with
        | none => none
        | some r' => emitEventLoopV4 r' rest

/-- Model of the legacy `Run.emitEvent(data)`: the updated run and the
string the method returns. -/
def emitEventV4 (r : RunV4) (data : Str) : Option (RunV4 × Str) :=
  emitEventLoopV4 r (splitNl data)

/-- Body of the legacy `Run.processStdout` once the payload is parsed
(`Json.null` models the `TypeError` of `out.done` on `null`).  Note the
legacy condition `out.done !== undefined && !out.done`: a payload without a
`done` member finishes the run here, unlike the current handler. -/
def processStdoutParsedV4 (r : RunV4) (out : Json) : Option RunV4 :=
  match out with
  | .null => none
  | _ =>
    match getField out "done" with
    | some d =>
      if !jsTruthy d then
        some
          { r with
            chatState := stringifyO (getField out "state")
            state := .cont }
      else
        some { r with state := .finished, chatState := none }
    | none => some { r with state := .finished, chatState := none }

/-- Model of the legacy `Run.processStdout(data)`: a blank string is
ignored; a string that fails to parse as JSON is returned as-is; otherwise
the payload drives the transition and "" is returned. -/
def processStdoutV4 (r : RunV4) (data : Json) : Option (RunV4 × Str) :=
  match data with
  | .str s =>
    if (jsTrim s).isEmpty then some (r, [])
    else
      match jsonParse s with
      | none => some (r, s)
      | some d => (processStdoutParsedV4 r d).map (fun r' => (r', []))
  | d => (processStdoutParsedV4 r d).map (fun r' => (r', []))

/-- Line loop of the legacy `res.on("data")` handler
(`src/unnamed/part_004` lines 439-465): strip the "data: " tag, trim, skip
blanks, stop at the "[DONE]" sentinel, parse (a failure stores the trimmed
line as the carry-over and stops).  On success the carry-over is first
cleared; then a truthy `stderr` member appends to the diagnostic buffer, a
truthy `stdout` member goes to `processStdout` with its returned string
discarded, and otherwise the record text goes to `emitEvent`, whose return
becomes the carry-over.  `Json.null` models the `TypeError` from `e.stderr`
on `null`. -/
def onDataLoopV4 (r : RunV4) (frag : Str) : List Str → Option (RunV4 × Str)
  | [] => some (r, frag)
  | line :: rest =>
    let c := jsTrim (stripDataTag line)
    if c.isEmpty then onDataLoopV4 r frag rest
    else if c = cs "[DONE]" then some (r, frag)
    else
      match jsonParse c with
      | none => some (r, c)
      | some e =>
        let r1 := { r with seen := r.seen ++ [e] }
        match e with
        | Json.null => none
        | _ =>
          if jsTruthyO (getField e "stderr") then
            let sv := (getField e "stderr").getD Json.null
            let txt := match sv with | Json.str s => s | v => stringify v
            onDataLoopV4
              { r1 with stderrBuf := some ((r1.stderrBuf.getD []) ++ txt) } [] rest
          else if jsTruthyO (getField e "stdout") then
            match processStdoutV4 r1 ((getField e "stdout").getD Json.null) with
            | none => none
            | some (r', _) => onDataLoopV4 r' [] rest
          else
            match emitEventV4 r1 c with
            | none => none
            | some (r', frag') => onDataLoopV4 r' frag' rest

/-- Model of one legacy `res.on("data")` invocation: the carry-over
fragment is appended AFTER the chunk — `(chunk.toString() + frag)` — the
opposite order from the current handler's `frag + chunk.toString()`. -/
def onDataV4 (r : RunV4) (frag : Str) (chunk : Str) : Option (RunV4 × Str) :=
  onDataLoopV4 r frag (splitNl (chunk ++ frag))

/-- Splitting a newline-free string on newlines yields the string itself. -/
theorem splitNl_no_nl {l : Str} (h : '\n' ∉ l) : splitNl l = [l] := by
  induction l with
  | nil => rfl
  | cons c rest ih =>
    have hc : c ≠ '\n' := fun hceq => h (hceq ▸ List.mem_cons_self c rest)
    have hr : '\n' ∉ rest := fun hm => h (List.mem_cons_of_mem c hm)
    simp [splitNl, hc, ih hr]

/-- Splitting a string whose first newline ends a newline-free piece. -/
theorem splitNl_append_nl {l : Str} (rest : Str) (h : '\n' ∉ l) :
    splitNl (l ++ '\n' :: rest) = l :: splitNl rest := by
  induction l with
  | nil => simp [splitNl]
  | cons c l' ih =>
    have hc : c ≠ '\n' := fun hceq => h (hceq ▸ List.mem_cons_self c l')
    have hr : '\n' ∉ l' := fun hm => h (List.mem_cons_of_mem c hm)
    simp [splitNl, hc, ih hr]

/-- Trimming a whitespace-free string is the identity. -/
theorem jsTrim_no_ws {l : Str} (h : ∀ c ∈ l, isWsChar c = false) : jsTrim l = l := by
  unfold jsTrim
  have h1 : l.dropWhile isWsChar = l := by
    cases l with
    | nil => rfl
    | cons c rest =>
      rw [List.dropWhile_cons_of_neg]
      simp [h c (List.mem_cons_self c rest)]
  rw [h1]
  have h2 : l.reverse.dropWhile isWsChar = l.reverse := by
    cases hrev : l.reverse with
    | nil => rfl
    | cons c rest =>
      rw [List.dropWhile_cons_of_neg]
      have : c ∈ l := by
        rw [← List.mem_reverse, hrev]
        exact List.mem_cons_self c rest
      simp [h c this]
  rw [h2, List.reverse_reverse]

/-- Stripping the "data: " tag from a space-free string is the identity. -/
theorem stripDataTag_no_space {l : Str} (h : ' ' ∉ l) : stripDataTag l = l := by
  unfold stripDataTag
  rw [if_neg]
  intro hpre
  rw [List.isPrefixOf_iff_prefix] at hpre
  have : ' ' ∈ l := hpre.sublist.subset (by simp [cs])
  exact h this

theorem closeRun_seen {r r' : RunM} (h : closeRun r = some r') : r'.seen = r.seen := by
  unfold closeRun at h
  split at h
  · simp only [Option.some.injEq] at h
    subst h
    rfl
  · exact Option.noConfusion h

theorem processFrame_seen {r r' : RunM} {f : Json} {b : Bool}
    (h : processFrame r f = some (r', b)) : r'.seen = r.seen := by
  unfold processFrame at h
  split at h
  · split at h
    next => exact Option.noConfusion h
    next r1 hc =>
      simp only [Option.some.injEq, Prod.mk.injEq] at h
      obtain ⟨h1, _⟩ := h
      subst h1
      simpa using closeRun_seen hc
  · split at h
    · simp only [Option.some.injEq, Prod.mk.injEq] at h
      obtain ⟨h1, _⟩ := h
      subst h1
      rfl
    · split at h
      · split at h <;>
        · simp only [Option.some.injEq, Prod.mk.injEq] at h
          obtain ⟨h1, _⟩ := h
          subst h1
          rfl
      · split at h
        next t =>
          split at h
          · simp only [Option.some.injEq, Prod.mk.injEq] at h
            obtain ⟨h1, _⟩ := h
            subst h1
            simp only [emit2]
            split <;> rfl
          · simp only [Option.some.injEq, Prod.mk.injEq] at h
            obtain ⟨h1, _⟩ := h
            subst h1
            rfl
        next => exact Option.noConfusion h

theorem emitLoop_seen : ∀ (evs : List Str) {r r' : RunM} {fr : Str},
    emitLoop r evs = some (r', fr) → r'.seen = r.seen := by
  intro evs
  induction evs with
  | nil =>
    intro r r' fr h
    simp only [emitLoop, Option.some.injEq, Prod.mk.injEq] at h
    obtain ⟨h1, _⟩ := h
    subst h1
    rfl
  | cons ev rest ih =>
    intro r r' fr h
    simp only [emitLoop] at h
    split at h
    · exact ih h
    · split at h
      next =>
        simp only [Option.some.injEq, Prod.mk.injEq] at h
        obtain ⟨h1, _⟩ := h
        subst h1
        rfl
      next => exact Option.noConfusion h
      next obj hp hnn =>
        split at h
        next =>
          simp only [Option.some.injEq, Prod.mk.injEq] at h
          obtain ⟨h1, _⟩ := h
          subst h1
          rfl
        next f0 hf =>
          split at h
          next => exact Option.noConfusion h
          next r1 early hpf =>
            have h1 := processFrame_seen hpf
            split at h
            · simp only [Option.some.injEq, Prod.mk.injEq] at h
              obtain ⟨h2, _⟩ := h
              subst h2
              exact h1
            · exact (ih h).trans h1

theorem emitEvent_seen {r r' : RunM} {d fr : Str}
    (h : emitEvent r d = some (r', fr)) : r'.seen = r.seen :=
  emitLoop_seen _ h

theorem processStdoutParsed_seen {r r' : RunM} {v : Json} {fr : Str}
    (h : processStdoutParsed r v = some (r', fr)) : r'.seen = r.seen := by
  unfold processStdoutParsed at h
  split at h
  · exact Option.noConfusion h
  · split at h
    · simp only [Option.some.injEq, Prod.mk.injEq] at h
      obtain ⟨h1, _⟩ := h
      subst h1
      rfl
    · split at h <;>
      · simp only [Option.some.injEq, Prod.mk.injEq] at h
        obtain ⟨h1, _⟩ := h
        subst h1
        rfl

theorem processStdout_seen {r r' : RunM} {v : Json} {fr : Str}
    (h : processStdout r v = some (r', fr)) : r'.seen = r.seen := by
  unfold processStdout at h
  split at h
  next s =>
    split at h
    · simp only [Option.some.injEq, Prod.mk.injEq] at h
      obtain ⟨h1, _⟩ := h
      subst h1
      rfl
    · split at h
      next =>
        simp only [Option.some.injEq, Prod.mk.injEq] at h
        obtain ⟨h1, _⟩ := h
        subst h1
        rfl
      next d hp => exact processStdoutParsed_seen h
  next => exact processStdoutParsed_seen h

theorem classifyStep_seen {r r' : RunM} {c fr : Str} {e : Json}
    (h : classifyStep r c e = some (r', fr)) : r'.seen = r.seen := by
  unfold classifyStep at h
  split at h
  · exact Option.noConfusion h
  · split at h
    · simp only [Option.some.injEq, Prod.mk.injEq] at h
      obtain ⟨h1, _⟩ := h
      subst h1
      rfl
    · split at h
      · exact processStdout_seen h
      · exact emitEvent_seen h

theorem lookupKey_insertReplace (l : List (Str × Json)) (k : Str) (v : Json) :
    lookupKey (insertReplace l k v) k = some v := by
  induction l with
  | nil => simp [insertReplace, lookupKey, List.lookup]
  | cons p rest ih =>
    obtain ⟨k', v'⟩ := p
    by_cases hk : k' = k
    · subst hk
      simp [insertReplace, lookupKey, List.lookup]
    · simp only [insertReplace, if_neg hk]
      have hkk : (k == k') = false := beq_eq_false_iff_ne.mpr (Ne.symm hk)
      simp only [lookupKey, List.lookup, hkk]
      exact ih

theorem countKey_insertReplace (l : List (Str × Json)) (k : Str) (v : Json) :
    countKey (insertReplace l k v) k = max (countKey l k) 1 := by
  induction l with
  | nil => simp [insertReplace, countKey]
  | cons p rest ih =>
    obtain ⟨k', v'⟩ := p
    by_cases hk : k' = k
    · subst hk
      simp only [insertReplace, if_pos rfl]
      simp [countKey]
    · simp only [insertReplace, if_neg hk]
      simpa [countKey, hk] using ih

theorem processStdoutParsed_frag {r r' : RunM} {v : Json} {fr : Str}
    (h : processStdoutParsed r v = some (r', fr)) : fr = [] := by
  unfold processStdoutParsed at h
  split at h
  · exact Option.noConfusion h
  · split at h
    · simp only [Option.some.injEq, Prod.mk.injEq] at h
      exact h.2.symm
    · split at h <;>
      · simp only [Option.some.injEq, Prod.mk.injEq] at h
        exact h.2.symm

/-- Evaluation of `emitLoop` on a single already-trimmed nonempty event that
parses to a non-null value: the recursion disappears (the tail is empty).
Whether or not the prompt-policy branch cut processing short, a processed
frame yields an empty carry-over. -/
theorem emitLoop_single_some {r : RunM} {c : Str} {obj : Json}
    (htrim : jsTrim c = c) (hc : c ≠ []) (hparse : jsonParse c = some obj)
    (hnn : obj ≠ Json.null) :
    emitLoop r [c] =
      match envelope obj with
      | none => some (r, c)
      | some f =>
        match processFrame r f with
        | none => none
        | some (r', _) => some (r', []) := by
  simp only [emitLoop, htrim]
  rw [if_neg (by simp [List.isEmpty_iff, hc]), hparse]
  cases obj with
  | null => exact absurd rfl hnn
  | bool b =>
    cases henv : envelope (Json.bool b) with
    | none => simp [henv]
    | some f =>
      cases hpf : processFrame r f with
      | none => simp [henv, hpf]
      | some p =>
        obtain ⟨r1, early⟩ := p
        simp [henv, hpf, emitLoop]
  | num lx =>
    cases henv : envelope (Json.num lx) with
    | none => simp [henv]
    | some f =>
      cases hpf : processFrame r f with
      | none => simp [henv, hpf]
      | some p =>
        obtain ⟨r1, early⟩ := p
        simp [henv, hpf, emitLoop]
  | str t =>
    cases henv : envelope (Json.str t) with
    | none => simp [henv]
    | some f =>
      cases hpf : processFrame r f with
      | none => simp [henv, hpf]
      | some p =>
        obtain ⟨r1, early⟩ := p
        simp [henv, hpf, emitLoop]
  | arr xs =>
    cases henv : envelope (Json.arr xs) with
    | none => simp [henv]
    | some f =>
      cases hpf : processFrame r f with
      | none => simp [henv, hpf]
      | some p =>
        obtain ⟨r1, early⟩ := p
        simp [henv, hpf, emitLoop]
  | obj fs =>
    cases henv : envelope (Json.obj fs) with
    | none => simp [henv]
    | some f =>
      cases hpf : processFrame r f with
      | none => simp [henv, hpf]
      | some p =>
        obtain ⟨r1, early⟩ := p
        simp [henv, hpf, emitLoop]

theorem envelope_of_call {obj fr : Json}
    (hrun : jsTruthyO (getField obj "run") = false)
    (hcall : getField obj "call" = some fr) (hfrt : jsTruthy fr = true) :
    envelope obj = some fr := by
  unfold envelope
  rw [if_neg (by simp [hrun]), if_pos (by simp [hcall, jsTruthyO, hfrt]), hcall]

theorem envelope_of_prompt {obj fr : Json}
    (hrun : jsTruthyO (getField obj "run") = false)
    (hcallF : jsTruthyO (getField obj "call") = false)
    (hprompt : getField obj "prompt" = some fr) (hfrt : jsTruthy fr = true) :
    envelope obj = some fr := by
  unfold envelope
  rw [if_neg (by simp [hrun]), if_neg (by simp [hcallF]),
      if_pos (by simp [hprompt, jsTruthyO, hfrt]), hprompt]

/-- Classifying a clean record never leaves a carry-over fragment. -/
theorem classifyStep_clean_frag {r r2 : RunM} {c fr2 : Str} {v : Json}
    (htrim : jsTrim c = c) (hnl : splitNl c = [c]) (hc : c ≠ [])
    (hparse : jsonParse c = some v) (hclean : cleanRecord v = true)
    (h : classifyStep r c v = some (r2, fr2)) : fr2 = [] := by
  cases v with
  | null => exact Option.noConfusion h
  | bool b => simp [cleanRecord, getField, jsTruthyO] at hclean
  | num lx => simp [cleanRecord, getField, jsTruthyO] at hclean
  | str s => simp [cleanRecord, getField, jsTruthyO] at hclean
  | arr xs => simp [cleanRecord, getField, jsTruthyO] at hclean
  | obj fs =>
    simp only [classifyStep] at h
    by_cases hstderr : jsTruthyO (getField (Json.obj fs) "stderr") = true
    · rw [if_pos hstderr] at h
      simp only [Option.some.injEq, Prod.mk.injEq] at h
      exact h.2.symm
    · rw [if_neg hstderr] at h
      by_cases hstdout : jsTruthyO (getField (Json.obj fs) "stdout") = true
      · rw [if_pos hstdout] at h
        simp only [cleanRecord, Bool.not_eq_true] at hclean
        rw [if_neg hstderr, if_pos hstdout] at hclean
        revert h
        generalize hpay : (getField (Json.obj fs) "stdout").getD Json.null = payload
        rw [hpay] at hclean
        intro h
        cases payload with
        | str s =>
          simp only [processStdout] at h
          simp only [] at hclean
          by_cases hblank : (jsTrim s).isEmpty = true
          · rw [if_pos hblank] at h
            simp only [Option.some.injEq, Prod.mk.injEq] at h
            exact h.2.symm
          · rw [if_neg hblank] at h
            rw [if_neg hblank] at hclean
            cases hps : jsonParse s with
            | none => rw [hps] at hclean; simp at hclean
            | some d =>
              rw [hps] at h
              exact processStdoutParsed_frag h
        | null => simp only [processStdout] at h; exact processStdoutParsed_frag h
        | bool b => simp only [processStdout] at h; exact processStdoutParsed_frag h
        | num lx => simp only [processStdout] at h; exact processStdoutParsed_frag h
        | arr xs => simp only [processStdout] at h; exact processStdoutParsed_frag h
        | obj gs => simp only [processStdout] at h; exact processStdoutParsed_frag h
      · rw [if_neg hstdout] at h
        unfold emitEvent at h
        rw [hnl] at h
        rw [emitLoop_single_some htrim hc hparse (by simp)] at h
        simp only [cleanRecord] at hclean
        rw [if_neg hstderr, if_neg hstdout] at hclean
        cases henv : envelope (Json.obj fs) with
        | none =>
          exfalso
          unfold envelope at henv
          by_cases h1 : jsTruthyO (getField (Json.obj fs) "run") = true
          · rw [if_pos h1] at henv
            rw [henv] at h1
            simp [jsTruthyO] at h1
          · rw [if_neg h1] at henv
            by_cases h2 : jsTruthyO (getField (Json.obj fs) "call") = true
            · rw [if_pos h2] at henv
              rw [henv] at h2
              simp [jsTruthyO] at h2
            · rw [if_neg h2] at henv
              by_cases h3 : jsTruthyO (getField (Json.obj fs) "prompt") = true
              · rw [if_pos h3] at henv
                rw [henv] at h3
                simp [jsTruthyO] at h3
              · simp [h1, h2, h3] at hclean
        | some f =>
          rw [henv] at h
          replace h : (match processFrame r f with
                       | none => none
                       | some (r', _) => some (r', ([] : Str))) = some (r2, fr2) := h
          cases hpf : processFrame r f with
          | none =>
            rw [hpf] at h
            exact Option.noConfusion h
          | some p =>
            obtain ⟨r1, early⟩ := p
            rw [hpf] at h
            replace h : some (r1, ([] : Str)) = some (r2, fr2) := h
            simp only [Option.some.injEq, Prod.mk.injEq] at h
            exact h.2.symm

theorem typeIs_of_str {f : Json} {t : Str} (h : getField f "type" = some (Json.str t))
    (s : String) : typeIs f s = decide (t = cs s) := by
  unfold typeIs
  rw [h]

theorem not_call_names {t : Str} (h : (cs "call").isPrefixOf t = true) :
    t ≠ cs "prompt" ∧ t ≠ cs "runStart" ∧ t ≠ cs "runFinish" := by
  refine ⟨?_, ?_, ?_⟩ <;> intro he <;> rw [he] at h <;> exact absurd h (by decide)

theorem callUpdate_state (r : RunM) (fr : Json) : (callUpdate r fr).state = r.state := by
  simp only [callUpdate, emit2]
  split <;> rfl

theorem callUpdate_calls (r : RunM) (fr : Json) :
    (callUpdate r fr).calls = insertReplace r.calls (jsKeyO (getField fr "id")) fr := by
  simp only [callUpdate, emit2]
  split <;> rfl

theorem callUpdate_chatState (r : RunM) (fr : Json) :
    (callUpdate r fr).chatState = r.chatState := by
  simp only [callUpdate, emit2]
  split <;> rfl

theorem callUpdate_err (r : RunM) (fr : Json) : (callUpdate r fr).err = r.err := by
  simp only [callUpdate, emit2]
  split <;> rfl

theorem callUpdate_closeCount (r : RunM) (fr : Json) :
    (callUpdate r fr).closeCount = r.closeCount := by
  simp only [callUpdate, emit2]
  split <;> rfl

theorem processFrame_call {r : RunM} {fr : Json} {t : Str}
    (hty : getField fr "type" = some (Json.str t))
    (hstarts : (cs "call").isPrefixOf t = true) :
    processFrame r fr = some (callUpdate r fr, false) := by
  obtain ⟨ht1, ht2, ht3⟩ := not_call_names hstarts
  unfold processFrame
  rw [typeIs_of_str hty "prompt", decide_eq_false ht1]
  rw [typeIs_of_str hty "runStart", decide_eq_false ht2]
  rw [typeIs_of_str hty "runFinish", decide_eq_false ht3]
  simp only [Bool.false_and]
  rw [if_neg (by simp), if_neg (by simp), if_neg (by simp)]
  rw [hty]
  show (if (cs "call").isPrefixOf t = true then
          some (callUpdate r fr, false)
        else some (emit2 r fr, false)) = some (callUpdate r fr, false)
  rw [if_pos hstarts]

/-- Behaviour of `emitEvent` on a single call-type event record: the frame
replaces the call-map entry under its id and the run state is untouched. -/
theorem emitEvent_call_record {r : RunM} {d : Str} {obj fr : Json} {t : Str}
    (hnl : splitNl d = [d]) (htrim : jsTrim d = d) (hne : d ≠ [])
    (hparse : jsonParse d = some obj)
    (hrun : jsTruthyO (getField obj "run") = false)
    (hcall : getField obj "call" = some fr) (hfrt : jsTruthy fr = true)
    (hty : getField fr "type" = some (Json.str t))
    (hstarts : (cs "call").isPrefixOf t = true) :
    emitEvent r d = some (callUpdate r fr, []) := by
  unfold emitEvent
  rw [hnl]
  have hnn : obj ≠ Json.null := by
    intro he
    rw [he] at hcall
    simp [getField] at hcall
  rw [emitLoop_single_some htrim hne hparse hnn]
  rw [envelope_of_call hrun hcall hfrt]
  show (match processFrame r fr with
        | none => none
        | some (r', _) => some (r', ([] : Str))) = some (callUpdate r fr, [])
  rw [processFrame_call hty hstarts]

/-- Behaviour of `emitEvent` on a prompt-type record while prompting is
disabled and the run has started: the run goes to `Error` with the policy
message, the request teardown runs exactly once, and nothing is fanned out. -/
theorem emitEvent_prompt_record {r : RunM} {d : Str} {obj fr : Json}
    (hnl : splitNl d = [d]) (htrim : jsTrim d = d) (hne : d ≠ [])
    (hparse : jsonParse d = some obj)
    (hrun : jsTruthyO (getField obj "run") = false)
    (hcallF : jsTruthyO (getField obj "call") = false)
    (hprompt : getField obj "prompt" = some fr) (hfrt : jsTruthy fr = true)
    (hty : getField fr "type" = some (Json.str (cs "prompt")))
    (hopts : r.opts.prompt = false) (hreq : r.reqSet = true) :
    emitEvent r d = some ({ r with
                            state := .error,
                            err := Json.str (promptErrMsg fr),
                            destroyed := true,
                            closeCount := r.closeCount + 1 }, []) := by
  unfold emitEvent
  rw [hnl]
  have hnn : obj ≠ Json.null := by
    intro he
    rw [he] at hprompt
    simp [getField] at hprompt
  rw [emitLoop_single_some htrim hne hparse hnn]
  rw [envelope_of_prompt hrun hcallF hprompt hfrt]
  show (match processFrame r fr with
        | none => none
        | some (r', _) => some (r', ([] : Str))) =
    some ({ r with
            state := .error,
            err := Json.str (promptErrMsg fr),
            destroyed := true,
            closeCount := r.closeCount + 1 }, [])
  have hcond : (typeIs fr "prompt" && !r.opts.prompt) = true := by
    rw [typeIs_of_str hty "prompt", hopts]
    simp
  have hcl : closeRun { r with state := .error, err := Json.str (promptErrMsg fr) } =
      some { r with
             state := .error,
             err := Json.str (promptErrMsg fr),
             destroyed := true,
             closeCount := r.closeCount + 1 } := by
    unfold closeRun
    rw [if_pos (show ({ r with
                        state := RunState.error,
                        err := Json.str (promptErrMsg fr) } : RunM).reqSet = true from hreq)]
  have hpf : processFrame r fr =
      some ({ r with
              state := .error,
              err := Json.str (promptErrMsg fr),
              destroyed := true,
              closeCount := r.closeCount + 1 }, true) := by
    unfold processFrame
    rw [if_pos hcond, hcl]
  rw [hpf]

theorem take_ne_nil {l : Str} {k : Nat} (h0 : 0 < k) (hl : l ≠ []) : l.take k ≠ [] := by
  cases l with
  | nil => exact absurd rfl hl
  | cons a t =>
    cases k with
    | zero => omega
    | succ k => simp [List.take]

/-- C2 (amended): for the current handler and a newline-terminated record
whose JSON text contains no character JavaScript `trim()` strips (no ASCII
whitespace and no NBSP/ZWNBSP/Unicode space separator/line or paragraph
separator), has no nonempty proper prefix that parses as JSON or reads
"[DONE]", and whose classification leaves no carry-over (a well-formed
protocol record), splitting the record at any byte offset into two chunks
fed to the stream-data handler across two calls gives exactly the same
result as the unsplit record, and the record is recognized exactly once.
The unrestricted claim is false: the handler trims the carry-over fragment,
so a split adjacent to trimmable whitespace inside a JSON string literal
changes the parsed content, and the legacy handler concatenates the
carry-over on the wrong side of the chunk (see the counterexample). -/
theorem c2_frame_reassembly_amended (r : RunM) (J : Str) (v : Json) (k : Nat)
    (hne : J ≠ [])
    (hws : ∀ c ∈ J, isWsChar c = false)
    (hpre : ∀ i, 0 < i → i < J.length → (jsonParse (J.take i)).isNone = true)
    (hdone : ∀ i, i ≤ J.length → J.take i ≠ cs "[DONE]")
    (hparse : jsonParse J = some v)
    (hclean : cleanRecord v = true)
    (hk : k ≤ J.length + 1) :
    ((onData r [] ((J ++ ['\n']).take k)).bind fun p =>
        onData p.1 p.2 ((J ++ ['\n']).drop k)) = onData r [] (J ++ ['\n'])
    ∧ (∀ r' fr, onData r [] (J ++ ['\n']) = some (r', fr) →
        r'.seen = r.seen ++ [v] ∧ fr = []) := by
  have hnlJ : '\n' ∉ J := by
    intro hm
    have := hws _ hm
    simp [isWsChar] at this
  have hspJ : ' ' ∉ J := by
    intro hm
    have := hws _ hm
    simp [isWsChar] at this
  have htrimJ : jsTrim J = J := jsTrim_no_ws hws
  have hstripJ : stripDataTag J = J := stripDataTag_no_space hspJ
  have hsplitJ : splitNl J = [J] := splitNl_no_nl hnlJ
  have hJD : J ≠ cs "[DONE]" := by
    have := hdone J.length (Nat.le_refl _)
    rwa [List.take_length] at this
  have hskip : ∀ (r0 : RunM) (fg : Str) (rest : List Str),
      onDataLoop r0 fg ([] :: rest) = onDataLoop r0 fg rest := by
    intro r0 fg rest
    simp only [onDataLoop]
    rw [if_pos (by decide)]
  have hline : ∀ (r0 : RunM) (fg : Str) (rest : List Str),
      onDataLoop r0 fg (J :: rest) =
        match classifyStep (recordSeen r0 v) J v with
        | none => none
        | some (r1, f1) => onDataLoop r1 f1 rest := by
    intro r0 fg rest
    simp only [onDataLoop, hstripJ, htrimJ]
    rw [if_neg (by simp [List.isEmpty_iff, hne]), if_neg hJD, hparse]
  have hfull : ∀ (r0 : RunM),
      onData r0 [] (J ++ ['\n']) = classifyStep (recordSeen r0 v) J v := by
    intro r0
    unfold onData
    simp only [List.nil_append]
    rw [splitNl_append_nl [] hnlJ, hline]
    cases hcs : classifyStep (recordSeen r0 v) J v with
    | none => rfl
    | some p =>
      obtain ⟨r1, f1⟩ := p
      show onDataLoop r1 f1 (splitNl []) = some (r1, f1)
      rw [show splitNl [] = [[]] from rfl, hskip]
      rfl
  have hpart2 : ∀ r' fr, onData r [] (J ++ ['\n']) = some (r', fr) →
      r'.seen = r.seen ++ [v] ∧ fr = [] := by
    intro r' fr h
    rw [hfull r] at h
    refine ⟨?_, classifyStep_clean_frag htrimJ hsplitJ hne hparse hclean h⟩
    have := classifyStep_seen h
    simpa [recordSeen] using this
  refine ⟨?_, hpart2⟩
  rcases Nat.lt_or_ge k J.length with hklt | hkge
  · rcases Nat.eq_zero_or_pos k with hk0 | hkpos
    · subst hk0
      simp only [List.take_zero, List.drop_zero]
      have h0 : onData r [] [] = some (r, []) := by
        unfold onData
        rw [show (([] : Str) ++ []) = ([] : Str) from rfl,
            show splitNl [] = [[]] from rfl, hskip]
        rfl
      rw [h0]
      rfl
    · have htk : (J ++ ['\n']).take k = J.take k :=
        List.take_append_of_le_length (Nat.le_of_lt hklt)
      have hdk : (J ++ ['\n']).drop k = J.drop k ++ ['\n'] :=
        List.drop_append_of_le_length (Nat.le_of_lt hklt)
      have hwsT : ∀ c ∈ J.take k, isWsChar c = false :=
        fun c hc => hws c (List.take_subset _ _ hc)
      have hspT : ' ' ∉ J.take k := fun hm => by
        have := hwsT _ hm
        simp [isWsChar] at this
      have hnlT : '\n' ∉ J.take k := fun hm => by
        have := hwsT _ hm
        simp [isWsChar] at this
      have hcall1 : onData r [] (J.take k) = some (r, J.take k) := by
        unfold onData
        simp only [List.nil_append]
        rw [splitNl_no_nl hnlT]
        simp only [onDataLoop, stripDataTag_no_space hspT, jsTrim_no_ws hwsT]
        rw [if_neg (by simp only [List.isEmpty_iff]; exact take_ne_nil hkpos hne),
            if_neg (hdone k (Nat.le_of_lt hklt)),
            Option.isNone_iff_eq_none.mp (hpre k hkpos hklt)]
      rw [htk, hdk, hcall1]
      show onData r (J.take k) (J.drop k ++ ['\n']) = _
      unfold onData
      simp only [List.nil_append]
      rw [← List.append_assoc, List.take_append_drop]
      rw [splitNl_append_nl [] hnlJ]
      rw [hline, hline]
  · have hcall1full : onData r [] J = classifyStep (recordSeen r v) J v := by
      unfold onData
      simp only [List.nil_append]
      rw [hsplitJ, hline]
      cases hcs : classifyStep (recordSeen r v) J v with
      | none => rfl
      | some p => rfl
    rcases Nat.eq_or_lt_of_le hkge with hkeq | hkgt
    · -- k = J.length: the whole JSON text in chunk 1, the newline in chunk 2
      have htk : (J ++ ['\n']).take k = J := by
        rw [← hkeq, List.take_append_of_le_length (Nat.le_refl _), List.take_length]
      have hdk : (J ++ ['\n']).drop k = ['\n'] := by
        rw [← hkeq, List.drop_append_of_le_length (Nat.le_refl _), List.drop_length,
            List.nil_append]
      rw [htk, hdk, hcall1full, hfull r]
      cases hcs : classifyStep (recordSeen r v) J v with
      | none => rfl
      | some p =>
        obtain ⟨r1, f1⟩ := p
        have hf1 : f1 = [] :=
          classifyStep_clean_frag htrimJ hsplitJ hne hparse hclean hcs
        subst hf1
        show onData r1 [] ['\n'] = some (r1, [])
        unfold onData
        rw [show (([] : Str) ++ ['\n']) = ['\n'] from rfl,
            show splitNl ['\n'] = [[], []] from rfl, hskip, hskip]
        rfl
    · -- k = J.length + 1: the whole record in chunk 1, chunk 2 empty
      have hkeq : k = J.length + 1 := Nat.le_antisymm hk hkgt
      subst hkeq
      have htk : (J ++ ['\n']).take (J.length + 1) = J ++ ['\n'] := by
        apply List.take_of_length_le
        simp
      have hdk : (J ++ ['\n']).drop (J.length + 1) = [] := by
        apply List.drop_eq_nil_of_le
        simp
      rw [htk, hdk, hfull r]
      cases hcs : classifyStep (recordSeen r v) J v with
      | none => rfl
      | some p =>
        obtain ⟨r1, f1⟩ := p
        have hf1 : f1 = [] :=
          classifyStep_clean_frag htrimJ hsplitJ hne hparse hclean hcs
        subst hf1
        show onData r1 [] [] = some (r1, [])
        unfold onData
        rw [show (([] : Str) ++ []) = ([] : Str) from rfl,
            show splitNl [] = [[]] from rfl, hskip]
        rfl

/-- C1 (counterexample): the claim "a Run's state, once Finished or Error,
never changes again regardless of further injected records" is false: a Run
in `Finished` state that receives an injected run-start event record moves
back to `Running`. -/
theorem c1_state_monotonicity_counterexample :
    (emitEvent ({ state := RunState.finished, reqSet := true } : RunM)
        (cs "\x7b\"run\":\x7b\"type\":\"runStart\"\x7d\x7d")).map (fun p => p.1.state)
      = some RunState.running
    ∧ RunState.running ≠ RunState.finished := ⟨rfl, by decide⟩

/-- C1 (amended): once a Run is `Finished` or `Error`, processing a further
injected call-type event record leaves the state unchanged; run-start,
run-finish, prompt-policy-violation and primary-output records can still
change the state (see the counterexample). -/
theorem c1_state_monotonicity_amended (r : RunM) (d : Str) (obj fr : Json) (t : Str)
    (hstate : r.state = RunState.finished ∨ r.state = RunState.error)
    (hnl : splitNl d = [d]) (htrim : jsTrim d = d) (hne : d ≠ [])
    (hparse : jsonParse d = some obj)
    (hrun : jsTruthyO (getField obj "run") = false)
    (hcall : getField obj "call" = some fr) (hfrt : jsTruthy fr = true)
    (hty : getField fr "type" = some (Json.str t))
    (hstarts : (cs "call").isPrefixOf t = true) :
    ∃ r', emitEvent r d = some (r', []) ∧ r'.state = r.state :=
  ⟨callUpdate r fr,
   emitEvent_call_record hnl htrim hne hparse hrun hcall hfrt hty hstarts,
   callUpdate_state r fr⟩

/-- C1 (witness): the amended statement at a concrete `Finished` run and a
concrete call-start record. -/
theorem c1_state_monotonicity_witness :
    ∃ r', emitEvent ({ state := RunState.finished, reqSet := true } : RunM)
        (cs "\x7b\"call\":\x7b\"id\":\"c1\",\"type\":\"callStart\"\x7d\x7d") = some (r', [])
      ∧ r'.state = ({ state := RunState.finished, reqSet := true } : RunM).state :=
  c1_state_monotonicity_amended
    ({ state := RunState.finished, reqSet := true } : RunM)
    (cs "\x7b\"call\":\x7b\"id\":\"c1\",\"type\":\"callStart\"\x7d\x7d")
    (Json.obj [(cs "call",
        Json.obj [(cs "id", Json.str (cs "c1")), (cs "type", Json.str (cs "callStart"))])])
    (Json.obj [(cs "id", Json.str (cs "c1")), (cs "type", Json.str (cs "callStart"))])
    (cs "callStart")
    (Or.inl rfl) rfl rfl (by decide) rfl rfl rfl rfl rfl rfl

/-- C2 (counterexample): the unrestricted claim is false for both cited
handlers.  Current handler: the record `\x7b"stderr":"x y"\x7d\n` split at
offset 13 (right after the space inside the string literal) is recognized
once but with different parsed content — the carry-over fragment is
trimmed, so the diagnostic buffer receives "xy" instead of "x y".  Legacy
handler (`src/unnamed/part_004`): it concatenates `chunk + frag` in the
wrong order, so the record `\x7b"stderr":"ab"\x7d\n` split at offset 5 is never
recognized at all (no record parsed, no diagnostic text), while unsplit it
is recognized once. -/
theorem c2_frame_reassembly_counterexample :
    ((onData ({} : RunM) [] ((cs "\x7b\"stderr\":\"x y\"\x7d" ++ ['\n']).take 13)).bind fun p =>
        onData p.1 p.2 ((cs "\x7b\"stderr\":\"x y\"\x7d" ++ ['\n']).drop 13)).map
        (fun p => p.1.stderrBuf)
      = some (cs "xy")
    ∧ (onData ({} : RunM) [] (cs "\x7b\"stderr\":\"x y\"\x7d" ++ ['\n'])).map
        (fun p => p.1.stderrBuf)
      = some (cs "x y")
    ∧ cs "xy" ≠ cs "x y"
    ∧ ((onDataV4 ({} : RunV4) [] ((cs "\x7b\"stderr\":\"ab\"\x7d" ++ ['\n']).take 5)).bind fun p =>
        onDataV4 p.1 p.2 ((cs "\x7b\"stderr\":\"ab\"\x7d" ++ ['\n']).drop 5)).map
        (fun p => (p.1.seen.length, p.1.stderrBuf))
      = some (0, none)
    ∧ (onDataV4 ({} : RunV4) [] (cs "\x7b\"stderr\":\"ab\"\x7d" ++ ['\n'])).map
        (fun p => (p.1.seen.length, p.1.stderrBuf))
      = some (1, some (cs "ab"))
    ∧ ((0 : Nat), (none : Option Str)) ≠ ((1 : Nat), some (cs "ab")) :=
  ⟨rfl, rfl, by decide, rfl, rfl, by decide⟩

/-- C2 (witness): the amended statement at the concrete record
`\x7b"stderr":"ab"\x7d\n`, split at offset 5, starting from a fresh run. -/
theorem c2_frame_reassembly_witness :
    ((onData ({} : RunM) [] ((cs "\x7b\"stderr\":\"ab\"\x7d" ++ ['\n']).take 5)).bind fun p =>
        onData p.1 p.2 ((cs "\x7b\"stderr\":\"ab\"\x7d" ++ ['\n']).drop 5))
      = onData ({} : RunM) [] (cs "\x7b\"stderr\":\"ab\"\x7d" ++ ['\n'])
    ∧ (∀ r' fr, onData ({} : RunM) [] (cs "\x7b\"stderr\":\"ab\"\x7d" ++ ['\n']) = some (r', fr) →
        r'.seen = ({} : RunM).seen ++ [Json.obj [(cs "stderr", Json.str (cs "ab"))]]
          ∧ fr = []) :=
  c2_frame_reassembly_amended ({} : RunM) (cs "\x7b\"stderr\":\"ab\"\x7d")
    (Json.obj [(cs "stderr", Json.str (cs "ab"))]) 5
    (by decide) (by decide)
    (fun i h0 hlt =>
      (by decide :
        ∀ i < (cs "\x7b\"stderr\":\"ab\"\x7d").length, 0 < i →
          (jsonParse ((cs "\x7b\"stderr\":\"ab\"\x7d").take i)).isNone = true) i hlt h0)
    (by decide) rfl rfl (by decide)

section
set_option maxRecDepth 100000
set_option maxHeartbeats 4000000

/-- C3 (counterexample): the claim that merging two same-id call records
keeps the union of fields with latest-wins is false.  After a call-start
record with `displayText:"d"` and a call-progress record without it, the
single map entry has no `displayText` at all: the source replaces the whole
frame (`this.calls[f.id] = f`), it does not merge fields. -/
theorem c3_call_merge_counterexample :
    ((emitEvent ({} : RunM)
        (cs "\x7b\"call\":\x7b\"id\":\"c1\",\"type\":\"callStart\",\"displayText\":\"d\"\x7d\x7d")).bind
        fun p => emitEvent p.1
          (cs "\x7b\"call\":\x7b\"id\":\"c1\",\"type\":\"callProgress\"\x7d\x7d")).map
      (fun p => (countKey p.1.calls (cs "c1"),
                 (lookupKey p.1.calls (cs "c1")).map (fun f => getField f "displayText")))
      = some (1, some none)
    ∧ getField (Json.obj [(cs "id", Json.str (cs "c1")),
        (cs "type", Json.str (cs "callStart")),
        (cs "displayText", Json.str (cs "d"))]) "displayText"
        = some (Json.str (cs "d")) := by
  constructor
  · rfl
  · rfl

/-- C3 (amended): processing two call-type records carrying the same id (an
id not previously in the call map) leaves exactly one entry for that id, and
that entry is the entire second record's call frame — full replacement, so a
field present only in the first record is *not* preserved. -/
theorem c3_call_merge_amended (r : RunM) (d1 d2 : Str) (o1 o2 f1 f2 : Json)
    (t1 t2 i : Str)
    (hnl1 : splitNl d1 = [d1]) (htrim1 : jsTrim d1 = d1) (hne1 : d1 ≠ [])
    (hp1 : jsonParse d1 = some o1)
    (hrun1 : jsTruthyO (getField o1 "run") = false)
    (hcall1 : getField o1 "call" = some f1) (hft1 : jsTruthy f1 = true)
    (hty1 : getField f1 "type" = some (Json.str t1))
    (hst1 : (cs "call").isPrefixOf t1 = true)
    (hnl2 : splitNl d2 = [d2]) (htrim2 : jsTrim d2 = d2) (hne2 : d2 ≠ [])
    (hp2 : jsonParse d2 = some o2)
    (hrun2 : jsTruthyO (getField o2 "run") = false)
    (hcall2 : getField o2 "call" = some f2) (hft2 : jsTruthy f2 = true)
    (hty2 : getField f2 "type" = some (Json.str t2))
    (hst2 : (cs "call").isPrefixOf t2 = true)
    (hid1 : getField f1 "id" = some (Json.str i))
    (hid2 : getField f2 "id" = some (Json.str i))
    (hfresh : countKey r.calls i = 0) :
    ∃ r', ((emitEvent r d1).bind fun p => emitEvent p.1 d2) = some (r', []) ∧
      countKey r'.calls i = 1 ∧ lookupKey r'.calls i = some f2 := by
  have h1 := emitEvent_call_record (r := r) hnl1 htrim1 hne1 hp1 hrun1 hcall1 hft1 hty1 hst1
  have h2 := emitEvent_call_record (r := callUpdate r f1) hnl2 htrim2 hne2 hp2
    hrun2 hcall2 hft2 hty2 hst2
  refine ⟨callUpdate (callUpdate r f1) f2, ?_, ?_, ?_⟩
  · rw [h1]
    exact h2
  · rw [callUpdate_calls, callUpdate_calls, hid1, hid2]
    simp only [jsKeyO, jsToDisplay]
    rw [countKey_insertReplace, countKey_insertReplace, hfresh]
    decide
  · rw [callUpdate_calls, callUpdate_calls, hid2]
    simp only [jsKeyO, jsToDisplay]
    exact lookupKey_insertReplace _ i f2

/-- C3 (witness): the amended statement at the two concrete records of the
counterexample, starting from a fresh run. -/
theorem c3_call_merge_witness :
    ∃ r', ((emitEvent ({} : RunM)
        (cs "\x7b\"call\":\x7b\"id\":\"c1\",\"type\":\"callStart\",\"displayText\":\"d\"\x7d\x7d")).bind
        fun p => emitEvent p.1
          (cs "\x7b\"call\":\x7b\"id\":\"c1\",\"type\":\"callProgress\"\x7d\x7d")) = some (r', [])
      ∧ countKey r'.calls (cs "c1") = 1
      ∧ lookupKey r'.calls (cs "c1")
          = some (Json.obj [(cs "id", Json.str (cs "c1")),
              (cs "type", Json.str (cs "callProgress"))]) :=
  c3_call_merge_amended ({} : RunM) _ _
    (Json.obj [(cs "call", Json.obj [(cs "id", Json.str (cs "c1")),
        (cs "type", Json.str (cs "callStart")),
        (cs "displayText", Json.str (cs "d"))])])
    (Json.obj [(cs "call", Json.obj [(cs "id", Json.str (cs "c1")),
        (cs "type", Json.str (cs "callProgress"))])])
    (Json.obj [(cs "id", Json.str (cs "c1")),
        (cs "type", Json.str (cs "callStart")),
        (cs "displayText", Json.str (cs "d"))])
    (Json.obj [(cs "id", Json.str (cs "c1")),
        (cs "type", Json.str (cs "callProgress"))])
    (cs "callStart") (cs "callProgress") (cs "c1")
    rfl rfl (by decide) rfl rfl rfl rfl rfl rfl
    rfl rfl (by decide) rfl rfl rfl rfl rfl rfl
    rfl rfl rfl

end

/-- C4 (confirmed): with prompting disabled in the options and the run
started, an injected prompt-type event record puts the Run in `Error` with a
descriptive (nonempty) policy message, invokes the request teardown exactly
once, and is never fanned out to subscribers. -/
theorem c4_prompt_policy (r : RunM) (d : Str) (obj fr : Json)
    (hopts : r.opts.prompt = false) (hreq : r.reqSet = true)
    (hnl : splitNl d = [d]) (htrim : jsTrim d = d) (hne : d ≠ [])
    (hparse : jsonParse d = some obj)
    (hrun : jsTruthyO (getField obj "run") = false)
    (hcallF : jsTruthyO (getField obj "call") = false)
    (hprompt : getField obj "prompt" = some fr) (hfrt : jsTruthy fr = true)
    (hty : getField fr "type" = some (Json.str (cs "prompt"))) :
    ∃ r', emitEvent r d = some (r', []) ∧ r'.state = RunState.error ∧
      r'.err = Json.str (promptErrMsg fr) ∧ promptErrMsg fr ≠ [] ∧
      r'.closeCount = r.closeCount + 1 ∧ r'.destroyed = true ∧
      r'.emitted = r.emitted := by
  refine ⟨_, emitEvent_prompt_record hnl htrim hne hparse hrun hcallF hprompt hfrt hty
    hopts hreq, rfl, rfl, ?_, rfl, rfl, rfl⟩
  unfold promptErrMsg
  intro h
  have := congrArg List.length h
  simp [cs] at this

/-- C4 (witness): the statement at a concrete prompt record injected into a
concrete started run with prompting disabled. -/
theorem c4_prompt_policy_witness :
    ∃ r', emitEvent ({ state := RunState.running, reqSet := true } : RunM)
        (cs "\x7b\"prompt\":\x7b\"id\":\"p1\",\"type\":\"prompt\",\"message\":\"m\"\x7d\x7d")
        = some (r', [])
      ∧ r'.state = RunState.error
      ∧ r'.err = Json.str (promptErrMsg (Json.obj [(cs "id", Json.str (cs "p1")),
          (cs "type", Json.str (cs "prompt")), (cs "message", Json.str (cs "m"))]))
      ∧ promptErrMsg (Json.obj [(cs "id", Json.str (cs "p1")),
          (cs "type", Json.str (cs "prompt")), (cs "message", Json.str (cs "m"))]) ≠ []
      ∧ r'.closeCount = ({ state := RunState.running, reqSet := true } : RunM).closeCount + 1
      ∧ r'.destroyed = true
      ∧ r'.emitted = ({ state := RunState.running, reqSet := true } : RunM).emitted :=
  c4_prompt_policy ({ state := RunState.running, reqSet := true } : RunM)
    (cs "\x7b\"prompt\":\x7b\"id\":\"p1\",\"type\":\"prompt\",\"message\":\"m\"\x7d\x7d")
    (Json.obj [(cs "prompt", Json.obj [(cs "id", Json.str (cs "p1")),
        (cs "type", Json.str (cs "prompt")), (cs "message", Json.str (cs "m"))])])
    (Json.obj [(cs "id", Json.str (cs "p1")),
        (cs "type", Json.str (cs "prompt")), (cs "message", Json.str (cs "m"))])
    rfl rfl rfl rfl (by decide) rfl rfl rfl rfl rfl rfl

/-- C5 (confirmed): calling `nextChat` on a Run whose state is `Finished`
(or `Running`) throws a usage error synchronously; in the model the call
returns `Except.error` before any new Run is constructed or any request is
issued, so no transport activity and no asynchronous surfacing occur. -/
theorem c5_continuation_legality (r : RunM) (inp : Str)
    (h : r.state = RunState.finished ∨ r.state = RunState.running) :
    nextChat r inp = Except.error (nextChatErrMsg r.state) := by
  unfold nextChat
  rcases h with h | h <;> rw [h] <;> rw [if_pos (by decide)]

/-- C5 (witness): the statement at a concrete finished Run. -/
theorem c5_continuation_legality_witness :
    nextChat ({ state := RunState.finished } : RunM) (cs "next")
      = Except.error (nextChatErrMsg RunState.finished) :=
  c5_continuation_legality ({ state := RunState.finished } : RunM) (cs "next") (Or.inl rfl)

/-- C6 (counterexample): the claim that `nextChat` always returns a new Run
object distinct from the receiver is false for a Run in `Creating` state:
the source keeps `run = this` and submits the receiver itself (`madeNew` in
the model mirrors the `run = new (this.constructor)` branch, which is only
taken when the state is not `Creating`). -/
theorem c6_next_run_counterexample :
    (nextChat ({ state := RunState.creating } : RunM) (cs "hi")).toOption.map
      (fun o => o.madeNew) = some false := rfl

/-- C6 (amended): for a Run in `Continue` or `Error` state, `nextChat`
returns a fresh Run object distinct from the receiver and issues the
request; the new turn's input replaces the options' input; if the prior
state is `Continue` and the receiver holds a (truthy) continuation token,
that token is threaded into the shared options; if the prior state is
`Error`, the options' token is left as it was (no token from that run is
carried).  For a `Creating` receiver the call succeeds but submits the
receiver itself (see the counterexample). -/
theorem c6_next_run_amended (r : RunM) (inp : Str)
    (h : r.state = RunState.cont ∨ r.state = RunState.error) :
    ∃ o, nextChat r inp = Except.ok o ∧ o.madeNew = true ∧ o.requested = true ∧
      o.opts.input = some inp ∧
      (r.state = RunState.cont → chatTruthy r.chatState = true →
        o.opts.chatState = r.chatState) ∧
      (r.state = RunState.error → o.opts.chatState = r.opts.chatState) := by
  rcases h with h | h
  · unfold nextChat
    rw [h]
    rw [if_neg (by decide)]
    refine ⟨_, rfl, rfl, rfl, rfl, ?_, ?_⟩
    · intro _ hct
      rw [if_pos (show (chatTruthy r.chatState && (RunState.cont == RunState.cont)) = true
        by simp [hct])]
    · intro he
      exact absurd he (by decide)
  · unfold nextChat
    rw [h]
    rw [if_neg (by decide)]
    refine ⟨_, rfl, rfl, rfl, rfl, ?_, ?_⟩
    · intro he
      exact absurd he (by decide)
    · intro _
      rw [if_neg (show ¬(chatTruthy r.chatState && (RunState.error == RunState.cont)) = true
        by simp)]

/-- C6 (witness): the amended statement at a concrete `Continue` Run holding
a continuation token. -/
theorem c6_next_run_witness :
    ∃ o, nextChat ({ state := RunState.cont, chatState := some (cs "\"tok1\"") } : RunM)
        (cs "next") = Except.ok o
      ∧ o.madeNew = true ∧ o.requested = true
      ∧ o.opts.input = some (cs "next")
      ∧ (({ state := RunState.cont, chatState := some (cs "\"tok1\"") } : RunM).state
            = RunState.cont →
          chatTruthy
            ({ state := RunState.cont, chatState := some (cs "\"tok1\"") } : RunM).chatState
            = true →
          o.opts.chatState
            = ({ state := RunState.cont, chatState := some (cs "\"tok1\"") } : RunM).chatState)
      ∧ (({ state := RunState.cont, chatState := some (cs "\"tok1\"") } : RunM).state
            = RunState.error →
          o.opts.chatState
            = ({ state := RunState.cont, chatState := some (cs "\"tok1\"") } : RunM).opts.chatState) :=
  c6_next_run_amended
    ({ state := RunState.cont, chatState := some (cs "\"tok1\"") } : RunM)
    (cs "next") (Or.inl rfl)

/-- C7 (counterexample): after injecting a primary-output payload
`\x7bdone:false, state:"tok1"\x7d` the Run's state is `Continue`, but
`currentChatState()` is the JSON *serialization* `"tok1"` (with quotes, six
characters), not the bare string `tok1`: the source stores
`JSON.stringify(out.state)`. -/
theorem c7_chat_state_counterexample :
    (processStdout ({ state := RunState.running, reqSet := true } : RunM)
        (Json.obj [(cs "done", Json.bool false), (cs "state", Json.str (cs "tok1"))])).map
        (fun p => (p.1.state, p.1.chatState))
      = some (RunState.cont, some (stringify (Json.str (cs "tok1"))))
    ∧ stringify (Json.str (cs "tok1")) = cs "\"tok1\""
    ∧ cs "\"tok1\"" ≠ cs "tok1" := by
  refine ⟨rfl, ?_, by decide⟩
  simp only [stringify]
  decide

/-- C7 (amended): a primary-output payload object with a missing or falsy
`done` member puts the Run in `Continue` and stores the JSON serialization
of the payload's `state` member as the continuation token (with the
`toolId` member captured as the responding tool); a truthy `done` member
puts the Run in `Finished` and clears the token. -/
theorem c7_stdout_transitions_amended (r : RunM) (fs : List (Str × Json)) :
    (getField (Json.obj fs) "done" = none →
      processStdout r (Json.obj fs) = some ({ r with
        chatState := stringifyO (getField (Json.obj fs) "state"),
        state := RunState.cont,
        respondingToolId := getField (Json.obj fs) "toolId" }, []))
    ∧ (∀ d, getField (Json.obj fs) "done" = some d → jsTruthy d = false →
      processStdout r (Json.obj fs) = some ({ r with
        chatState := stringifyO (getField (Json.obj fs) "state"),
        state := RunState.cont,
        respondingToolId := getField (Json.obj fs) "toolId" }, []))
    ∧ (∀ d, getField (Json.obj fs) "done" = some d → jsTruthy d = true →
      processStdout r (Json.obj fs) = some ({ r with
        state := RunState.finished, chatState := none }, [])) := by
  refine ⟨?_, ?_, ?_⟩
  · intro h
    simp only [processStdout, processStdoutParsed]
    split
    next => rfl
    next d' hd =>
      rw [h] at hd
      exact Option.noConfusion hd
  · intro d h ht
    simp only [processStdout, processStdoutParsed]
    split
    next hd =>
      rw [h] at hd
    next d' hd =>
      rw [h] at hd
      injection hd with hdd
      subst hdd
      rw [if_pos (by simp [ht])]
  · intro d h ht
    simp only [processStdout, processStdoutParsed]
    split
    next hd =>
      rw [h] at hd
      exact Option.noConfusion hd
    next d' hd =>
      rw [h] at hd
      injection hd with hdd
      subst hdd
      rw [if_neg (by simp [ht])]

/-- C7 (witness): the amended statement at concrete continue and finish
payloads. -/
theorem c7_stdout_transitions_witness :
    processStdout ({ state := RunState.running, reqSet := true } : RunM)
        (Json.obj [(cs "done", Json.bool false), (cs "state", Json.str (cs "tok1"))])
      = some ({ ({ state := RunState.running, reqSet := true } : RunM) with
          chatState := stringifyO (getField (Json.obj [(cs "done", Json.bool false),
            (cs "state", Json.str (cs "tok1"))]) "state"),
          state := RunState.cont,
          respondingToolId := getField (Json.obj [(cs "done", Json.bool false),
            (cs "state", Json.str (cs "tok1"))]) "toolId" }, [])
    ∧ processStdout ({ state := RunState.running, reqSet := true } : RunM)
        (Json.obj [(cs "done", Json.bool true)])
      = some ({ ({ state := RunState.running, reqSet := true } : RunM) with
          state := RunState.finished, chatState := none }, []) :=
  ⟨(c7_stdout_transitions_amended ({ state := RunState.running, reqSet := true } : RunM)
      [(cs "done", Json.bool false), (cs "state", Json.str (cs "tok1"))]).2.1
      (Json.bool false) rfl rfl,
   (c7_stdout_transitions_amended ({ state := RunState.running, reqSet := true } : RunM)
      [(cs "done", Json.bool true)]).2.2 (Json.bool true) rfl rfl⟩

/-- C8 (counterexample): the claim that a record *carrying* a diagnostic
field is handled only as diagnostic is false: classification tests
truthiness, not presence.  A record carrying `stderr:""` (present but empty)
together with a primary-output field is forwarded to the output-merge logic
— here the Run transitions to `Finished` — and the diagnostic buffer is
untouched. -/
theorem c8_classification_counterexample :
    (onData ({ state := RunState.running, reqSet := true } : RunM) []
        (cs "\x7b\"stderr\":\"\",\"stdout\":\x7b\"done\":true\x7d\x7d" ++ ['\n'])).map
        (fun p => (p.1.state, p.1.stderrBuf))
      = some (RunState.finished, [])
    ∧ jsonParse (cs "\x7b\"stderr\":\"\",\"stdout\":\x7b\"done\":true\x7d\x7d")
      = some (Json.obj [(cs "stderr", Json.str []),
          (cs "stdout", Json.obj [(cs "done", Json.bool true)])])
    ∧ RunState.finished ≠ RunState.running := by
  refine ⟨rfl, rfl, by decide⟩

/-- C8 (amended): classification is evaluated in order on *truthy* fields:
a truthy `stderr` member appends its text to the diagnostic buffer and
nothing else happens (even if a primary-output member is also present);
otherwise a truthy `stdout` member is forwarded to the output-merge logic;
otherwise the record text goes to the event path.  A present-but-falsy
field (such as `stderr:""`) does not select its branch. -/
theorem c8_classification_amended (r : RunM) (c : Str) (e : Json) :
    (∀ sv, getField e "stderr" = some sv → jsTruthy sv = true →
      classifyStep r c e = some ({ r with
        stderrBuf := r.stderrBuf ++ (match sv with | Json.str s => s | v => stringify v) }, []))
    ∧ (e ≠ Json.null → jsTruthyO (getField e "stderr") = false →
        jsTruthyO (getField e "stdout") = true →
      classifyStep r c e = processStdout r ((getField e "stdout").getD Json.null))
    ∧ (e ≠ Json.null → jsTruthyO (getField e "stderr") = false →
        jsTruthyO (getField e "stdout") = false →
      classifyStep r c e = emitEvent r c) := by
  refine ⟨?_, ?_, ?_⟩
  · intro sv hsv ht
    have hnn : e ≠ Json.null := by
      intro he
      rw [he] at hsv
      simp [getField] at hsv
    unfold classifyStep
    cases e with
    | null => exact absurd rfl hnn
    | bool b => simp [getField] at hsv
    | num lx => simp [getField] at hsv
    | str s => simp [getField] at hsv
    | arr xs => simp [getField] at hsv
    | obj fs =>
      have hc : jsTruthyO (getField (Json.obj fs) "stderr") = true := by
        rw [hsv]
        simpa [jsTruthyO] using ht
      rw [if_pos hc]
      simp only [hsv, Option.getD_some]
  · intro hnn h1 h2
    unfold classifyStep
    cases e with
    | null => exact absurd rfl hnn
    | bool b => simp [getField, jsTruthyO] at h2
    | num lx => simp [getField, jsTruthyO] at h2
    | str s => simp [getField, jsTruthyO] at h2
    | arr xs => simp [getField, jsTruthyO] at h2
    | obj fs =>
      rw [if_neg (by simp [h1]), if_pos h2]
  · intro hnn h1 h2
    unfold classifyStep
    cases e with
    | null => exact absurd rfl hnn
    | bool b => rw [if_neg (by simp [h1]), if_neg (by simp [h2])]
    | num lx => rw [if_neg (by simp [h1]), if_neg (by simp [h2])]
    | str s => rw [if_neg (by simp [h1]), if_neg (by simp [h2])]
    | arr xs => rw [if_neg (by simp [h1]), if_neg (by simp [h2])]
    | obj fs => rw [if_neg (by simp [h1]), if_neg (by simp [h2])]

/-- C8 (witness): the amended statement at concrete records — one with a
truthy diagnostic member next to a primary-output member (diagnostic wins),
and one with a falsy diagnostic member (output-merge wins). -/
theorem c8_classification_witness :
    classifyStep ({ state := RunState.running, reqSet := true } : RunM) (cs "x")
        (Json.obj [(cs "stderr", Json.str (cs "oops")),
          (cs "stdout", Json.obj [(cs "done", Json.bool true)])])
      = some ({ ({ state := RunState.running, reqSet := true } : RunM) with
          stderrBuf := ({ state := RunState.running, reqSet := true } : RunM).stderrBuf
            ++ cs "oops" }, [])
    ∧ classifyStep ({ state := RunState.running, reqSet := true } : RunM) (cs "x")
        (Json.obj [(cs "stderr", Json.str []),
          (cs "stdout", Json.obj [(cs "done", Json.bool true)])])
      = processStdout ({ state := RunState.running, reqSet := true } : RunM)
          ((getField (Json.obj [(cs "stderr", Json.str []),
            (cs "stdout", Json.obj [(cs "done", Json.bool true)])]) "stdout").getD Json.null) :=
  ⟨(c8_classification_amended ({ state := RunState.running, reqSet := true } : RunM) (cs "x")
      (Json.obj [(cs "stderr", Json.str (cs "oops")),
        (cs "stdout", Json.obj [(cs "done", Json.bool true)])])).1
      (Json.str (cs "oops")) rfl rfl,
   (c8_classification_amended ({ state := RunState.running, reqSet := true } : RunM) (cs "x")
      (Json.obj [(cs "stderr", Json.str []),
        (cs "stdout", Json.obj [(cs "done", Json.bool true)])])).2.1
      (fun h => Json.noConfusion h) rfl rfl⟩

/-- C9: along every sequence of facade constructions and closes, each
construction increments the shared reference count by exactly one and never
kills the subprocess, and each close decrements it by exactly one and kills
the subprocess exactly when the count it produces is zero and a subprocess
had been spawned; in particular a close leaving the count positive does not
touch the subprocess. -/
theorem c9_refcount_invariant (disableServer : Bool) (s0 : FacadeState)
    (ops : List FacOp) :
    ∀ st ∈ facTrace disableServer s0 ops,
      (st.2.1 = FacOp.construct →
        st.2.2.1.instanceCount = st.1.instanceCount + 1 ∧ st.2.2.2 = false)
      ∧ (st.2.1 = FacOp.close →
        st.2.2.1.instanceCount = st.1.instanceCount - 1
          ∧ (st.2.2.2 = true ↔
              st.2.2.1.instanceCount = 0 ∧ st.1.serverStarted = true)) := by
  induction ops generalizing s0 with
  | nil =>
    intro st hst
    simp [facTrace] at hst
  | cons op rest ih =>
    intro st hst
    rw [facTrace, List.mem_cons] at hst
    rcases hst with h | h
    · subst h
      cases op with
      | construct =>
        refine ⟨fun _ => ?_, fun hop => FacOp.noConfusion hop⟩
        simp only [facStep]
        split
        · exact ⟨rfl, rfl⟩
        · exact ⟨rfl, rfl⟩
      | close =>
        refine ⟨fun hop => FacOp.noConfusion hop, fun _ => ?_⟩
        simp only [facStep]
        split
        next h2 => exact ⟨rfl, by simpa using h2⟩
        next h2 =>
          refine ⟨rfl, ?_⟩
          constructor
          · intro hf
            exact (Bool.false_ne_true hf).elim
          · intro hc
            exact absurd hc h2
    · exact ih _ st h

/-- C9 (witness): the invariant at a concrete trace — two constructions
followed by two closes with the server enabled; the second close (count 1 to
0) carries the kill flag. -/
theorem c9_refcount_invariant_witness :
    (((⟨1, true⟩ : FacadeState), FacOp.close, (⟨0, true⟩ : FacadeState), true)
      ∈ facTrace false ⟨0, false⟩ [FacOp.construct, FacOp.close])
    ∧ (((⟨1, true⟩ : FacadeState), FacOp.close,
          (⟨0, true⟩ : FacadeState), true).2.1 = FacOp.close →
        (((⟨1, true⟩ : FacadeState), FacOp.close,
            (⟨0, true⟩ : FacadeState), true)).2.2.1.instanceCount
          = (((⟨1, true⟩ : FacadeState), FacOp.close,
              (⟨0, true⟩ : FacadeState), true)).1.instanceCount - 1
        ∧ ((((⟨1, true⟩ : FacadeState), FacOp.close,
              (⟨0, true⟩ : FacadeState), true)).2.2.2 = true ↔
            (((⟨1, true⟩ : FacadeState), FacOp.close,
                (⟨0, true⟩ : FacadeState), true)).2.2.1.instanceCount = 0
            ∧ (((⟨1, true⟩ : FacadeState), FacOp.close,
                (⟨0, true⟩ : FacadeState), true)).1.serverStarted = true)) :=
  ⟨by decide,
   (c9_refcount_invariant false ⟨0, false⟩ [FacOp.construct, FacOp.close]
      ((⟨1, true⟩ : FacadeState), FacOp.close, (⟨0, true⟩ : FacadeState), true)
      (by decide)).2⟩

/-- C10: `getEnv` returns the default when the variable is unset or empty;
when the value starts with the gzip marker and ends with the closing marker
it returns the decoded payload between them, falling back to the raw value
when decoding fails; otherwise it returns the raw value unchanged. -/
theorem c10_getenv (decode : Str → Option Str) (dflt : Str) :
    (∀ envVal, envVal = none ∨ envVal = some [] →
      getEnv envVal decode dflt = dflt)
    ∧ (∀ v, gzTag.isPrefixOf v = true → gzEnd.isSuffixOf v = true →
        getEnv (some v) decode dflt = (decode (gzPayload v)).getD v)
    ∧ (∀ v, v ≠ [] →
        ¬(gzTag.isPrefixOf v = true ∧ gzEnd.isSuffixOf v = true) →
        getEnv (some v) decode dflt = v) := by
  refine ⟨?_, ?_, ?_⟩
  · intro envVal h
    rcases h with h | h <;> rw [h] <;> rfl
  · intro v hpre hsuf
    have hv : v.isEmpty = false := by
      rw [List.isPrefixOf_iff_prefix] at hpre
      have hle := hpre.length_le
      cases v with
      | nil => simp [gzTag, cs] at hle
      | cons a l => rfl
    simp only [getEnv, Option.getD_some]
    rw [if_neg (by simp [hv]), if_pos ⟨hpre, hsuf⟩]
    cases decode (gzPayload v) <;> rfl
  · intro v hv hns
    simp only [getEnv, Option.getD_some]
    rw [if_neg (by simpa [List.isEmpty_iff] using hv), if_neg hns]

/-- C10 (witness): the three branches of `getEnv` at concrete values — an
unset variable, a gzip-wrapped value with a decoder that succeeds, and a
plain value. -/
theorem c10_getenv_witness :
    getEnv none (fun _ => some (cs "P")) (cs "D") = cs "D"
    ∧ getEnv (some (gzTag ++ cs "QUJD" ++ gzEnd)) (fun _ => some (cs "P"))
        (cs "D") = cs "P"
    ∧ getEnv (some (cs "plain")) (fun _ => some (cs "P")) (cs "D") = cs "plain" :=
  ⟨(c10_getenv (fun _ => some (cs "P")) (cs "D")).1 none (Or.inl rfl),
   by
     have h := (c10_getenv (fun _ => some (cs "P")) (cs "D")).2.1
       (gzTag ++ cs "QUJD" ++ gzEnd) (by decide) (by decide)
     simpa using h,
   (c10_getenv (fun _ => some (cs "P")) (cs "D")).2.2 (cs "plain")
     (by decide) (by decide)⟩
